import Mathlib

/-!
Verification of the llmd command-safety pipeline.

This file shallowly embeds the core of the llmd CLI (a natural-language to
shell-command tool) in Lean 4 and proves properties of the embedding:

* `src/services/severity.ts` - the danger-pattern severity classifier;
* `src/providers/base.ts`    - response extraction, sanitization, JSON
  verdict parsing and the informational-response fallback heuristic;
* `src/services/verifier.ts` (and the variant shipping with the informational
  detector) - the verification outcome combinator;
* `src/commands/run.ts`      - the confirmation / execution orchestration
  (modelled as a pure function over explicit user-input and executor oracles);
* `src/services/llm.ts`      - the session history bound.

JavaScript regexes from the source are embedded as an explicit regex AST with
a Brzozowski-derivative matcher; `RegExp.test` (unanchored search) is modelled
by wrapping the pattern in a leading and trailing "match anything".
-/

namespace Llmd

/-! ## JavaScript character classes -/

/-- JS `\s`: whitespace, including the line terminators and the Unicode
space characters JS puts in this class. -/
def isJsWs (c : Char) : Bool :=
  c = ' ' ∨ c = '\t' ∨ c = '\n' ∨ c = '\r' ∨ c = '\x0b' ∨ c = '\x0c' ∨
  c = ' ' ∨ c = ' ' ∨ (0x2000 ≤ c.toNat ∧ c.toNat ≤ 0x200a) ∨
  c = ' ' ∨ c = ' ' ∨ c = ' ' ∨ c = ' ' ∨ c = '　' ∨
  c = '﻿'

/-- JS line terminators (`\n`, `\r`, U+2028, U+2029): the characters that a
regex `.` does not match and that `^` in multiline mode anchors after. -/
def isLineTerm (c : Char) : Bool :=
  c = '\n' ∨ c = '\r' ∨ c = ' ' ∨ c = ' '

/-- JS `\w`: word characters. -/
def isWordChar (c : Char) : Bool :=
  ('a' ≤ c ∧ c ≤ 'z') ∨ ('A' ≤ c ∧ c ≤ 'Z') ∨ ('0' ≤ c ∧ c ≤ '9') ∨ c = '_'

/-- The backtick character (written via its code point). -/
def btick : Char := Char.ofNat 96

/-- `String.trim` as JS defines it (both ends, JS whitespace set). -/
def jsTrimList (l : List Char) : List Char :=
  ((l.dropWhile isJsWs).reverse.dropWhile isJsWs).reverse

/-- JS `String.prototype.trim`. -/
def jsTrim (s : String) : String :=
  ⟨jsTrimList s.data⟩

/-! ## A small regex engine (Brzozowski derivatives)

`Re` is the abstract syntax of the regex fragment the source uses; `reTest`
is JS `RegExp.test` (search anywhere in the string). -/

inductive Re : Type
  | fail : Re
  | eps : Re
  | cls : (Char → Bool) → Re
  | seq : Re → Re → Re
  | alt : Re → Re → Re
  | star : Re → Re

namespace Re

def nullable : Re → Bool
  | .fail => false
  | .eps => true
  | .cls _ => false
  | .seq a b => nullable a && nullable b
  | .alt a b => nullable a || nullable b
  | .star _ => true

/-- Smart sequencing (keeps derivative terms small). -/
def mkSeq : Re → Re → Re
  | .fail, _ => .fail
  | _, .fail => .fail
  | .eps, b => b
  | a, .eps => a
  | a, b => .seq a b

/-- Smart alternation (keeps derivative terms small). -/
def mkAlt : Re → Re → Re
  | .fail, b => b
  | a, .fail => a
  | a, b => .alt a b

def deriv : Re → Char → Re
  | .fail, _ => .fail
  | .eps, _ => .fail
  | .cls p, c => if p c then .eps else .fail
  | .seq a b, c =>
    if nullable a then mkAlt (mkSeq (deriv a c) b) (deriv b c)
    else mkSeq (deriv a c) b
  | .alt a b, c => mkAlt (deriv a c) (deriv b c)
  | .star a, c => mkSeq (deriv a c) (.star a)

/-- Whole-list match. -/
def rmatch (r : Re) (l : List Char) : Bool :=
  nullable (l.foldl deriv r)

end Re

/-- A single character. -/
def chr (c : Char) : Re := Re.cls (· = c)

/-- A literal string. -/
def rlit (s : String) : Re :=
  s.data.foldr (fun c acc => Re.seq (chr c) acc) Re.eps

/-- One-or-more. -/
def rplus (r : Re) : Re := Re.seq r (Re.star r)

/-- Zero-or-one. -/
def ropt (r : Re) : Re := Re.alt r Re.eps

/-- JS `\s`. -/
def wsp : Re := Re.cls isJsWs

/-- JS `\s+`. -/
def wspP : Re := rplus wsp

/-- JS `\s*`. -/
def wspS : Re := Re.star wsp

/-- JS `.` (anything but a line terminator). -/
def rdot : Re := Re.cls (fun c => ¬ isLineTerm c)

/-- Any character at all (used for the unanchored-search wrapper). -/
def rany : Re := Re.cls (fun _ => true)

/-- JS `RegExp.test`: the pattern matches somewhere in the string. -/
def reTest (r : Re) (s : String) : Bool :=
  Re.rmatch (Re.seq (Re.star rany) (Re.seq r (Re.star rany))) s.data

/-- JS `RegExp.test` for a pattern ending in `$` (no multiline flag): the
pattern must match a suffix-ending segment of the string. -/
def reTestAtEnd (r : Re) (s : String) : Bool :=
  Re.rmatch (Re.seq (Re.star rany) r) s.data

/-! ## Severity classifier (`src/services/severity.ts`) -/

inductive SeverityLevel : Type
  | critical | high | medium | low | safe
deriving DecidableEq, Repr, BEq

structure SeverityCheck where
  level : SeverityLevel
  reason : String
  warnings : List String
deriving DecidableEq, Repr

structure DangerEntry where
  test : String → Bool
  level : SeverityLevel
  reason : String

/-- `/rm\s+(-[rf]+\s+)*\/($|\s|;)/` : the `$` alternative makes this the
disjunction of an internal match and a string-final match. -/
def rmRootBody : Re :=
  Re.seq (rlit "rm") (Re.seq wspP (Re.seq
    (Re.star (Re.seq (chr '-') (Re.seq (rplus (Re.cls (fun c => c = 'r' ∨ c = 'f'))) wspP)))
    (chr '/')))

def rmRootTest (s : String) : Bool :=
  reTest (Re.seq rmRootBody (Re.alt wsp (chr ';'))) s || reTestAtEnd rmRootBody s

/-- `/rm\s+-[rf]*\s+--no-preserve-root/` -/
def rmNoPreserveRe : Re :=
  Re.seq (rlit "rm") (Re.seq wspP (Re.seq (chr '-')
    (Re.seq (Re.star (Re.cls (fun c => c = 'r' ∨ c = 'f')))
      (Re.seq wspP (rlit "--no-preserve-root")))))

/-- `/mkfs\s+/` -/
def mkfsRe : Re := Re.seq (rlit "mkfs") wspP

/-- `/dd\s+.*of=\/dev\/[sh]d[a-z]/` -/
def ddRe : Re :=
  Re.seq (rlit "dd") (Re.seq wspP (Re.seq (Re.star rdot)
    (Re.seq (rlit "of=/dev/") (Re.seq (Re.cls (fun c => c = 's' ∨ c = 'h'))
      (Re.seq (chr 'd') (Re.cls (fun c => 'a' ≤ c ∧ c ≤ 'z')))))))

/-- `/:\(\)\{\s*:\|:&\s*\};:/` (fork bomb, fully escaped form). -/
def forkBombRe : Re :=
  Re.seq (rlit ":()") (Re.seq (chr '{') (Re.seq wspS
    (Re.seq (rlit ":|:&") (Re.seq wspS (Re.seq (chr '}') (rlit ";:"))))))

/-- `/>\s*\/dev\/[sh]d[a-z]/` -/
def redirDevRe : Re :=
  Re.seq (chr '>') (Re.seq wspS (Re.seq (rlit "/dev/")
    (Re.seq (Re.cls (fun c => c = 's' ∨ c = 'h'))
      (Re.seq (chr 'd') (Re.cls (fun c => 'a' ≤ c ∧ c ≤ 'z'))))))

/-- `/mv\s+.*\s+\/dev\/null/` -/
def mvDevNullRe : Re :=
  Re.seq (rlit "mv") (Re.seq wspP (Re.seq (Re.star rdot) (Re.seq wspP (rlit "/dev/null"))))

/-- `/sudo\s+rm\s+-[rf]+/` -/
def sudoRmRe : Re :=
  Re.seq (rlit "sudo") (Re.seq wspP (Re.seq (rlit "rm") (Re.seq wspP
    (Re.seq (chr '-') (rplus (Re.cls (fun c => c = 'r' ∨ c = 'f')))))))

/-- `/chmod\s+(-R\s+)?(777|000)/` -/
def chmodRe : Re :=
  Re.seq (rlit "chmod") (Re.seq wspP (Re.seq (ropt (Re.seq (rlit "-R") wspP))
    (Re.alt (rlit "777") (rlit "000"))))

/-- `/chown\s+-R\s+.*\s+\//` -/
def chownRe : Re :=
  Re.seq (rlit "chown") (Re.seq wspP (Re.seq (rlit "-R") (Re.seq wspP
    (Re.seq (Re.star rdot) (Re.seq wspP (chr '/'))))))

/-- `/>\s*\/etc\//` -/
def redirEtcRe : Re := Re.seq (chr '>') (Re.seq wspS (rlit "/etc/"))

/-- `/curl\s+.*\|\s*(sudo\s+)?(ba)?sh/` -/
def curlPipeRe : Re :=
  Re.seq (rlit "curl") (Re.seq wspP (Re.seq (Re.star rdot) (Re.seq (chr '|')
    (Re.seq wspS (Re.seq (ropt (Re.seq (rlit "sudo") wspP))
      (Re.seq (ropt (rlit "ba")) (rlit "sh")))))))

/-- `/wget\s+.*\|\s*(sudo\s+)?(ba)?sh/` -/
def wgetPipeRe : Re :=
  Re.seq (rlit "wget") (Re.seq wspP (Re.seq (Re.star rdot) (Re.seq (chr '|')
    (Re.seq wspS (Re.seq (ropt (Re.seq (rlit "sudo") wspP))
      (Re.seq (ropt (rlit "ba")) (rlit "sh")))))))

/-- `/eval\s+.*\$\(/` -/
def evalRe : Re :=
  Re.seq (rlit "eval") (Re.seq wspP (Re.seq (Re.star rdot) (rlit "$(")))

/-- `/:(){ :|:& };:/` : unescaped, so `()` is an empty capturing group
(matching the empty string, contributing no characters) and `|` is a
top-level alternation; the pattern therefore matches any command containing
the text `:{ :` (colon, empty group, brace, space, colon) or `:& };:`. -/
def forkBombVariantRe : Re :=
  Re.alt (Re.seq (chr ':') (Re.seq Re.eps (Re.seq (chr '{') (rlit " :"))))
         (Re.seq (rlit ":& ") (Re.seq (chr '}') (rlit ";:")))

/-- `/rm\s+-[rf]+/` -/
def rmRfRe : Re :=
  Re.seq (rlit "rm") (Re.seq wspP (Re.seq (chr '-')
    (rplus (Re.cls (fun c => c = 'r' ∨ c = 'f')))))

/-- `/rm\s+\*/` -/
def rmStarRe : Re := Re.seq (rlit "rm") (Re.seq wspP (chr '*'))

/-- `/sudo\s+/` -/
def sudoRe : Re := Re.seq (rlit "sudo") wspP

/-- `/>\s+[^|&]+\.(conf|cfg|ini|json|yaml|yml)/` -/
def redirConfRe : Re :=
  Re.seq (chr '>') (Re.seq wspP (Re.seq (rplus (Re.cls (fun c => ¬ (c = '|' ∨ c = '&'))))
    (Re.seq (chr '.') (Re.alt (rlit "conf") (Re.alt (rlit "cfg") (Re.alt (rlit "ini")
      (Re.alt (rlit "json") (Re.alt (rlit "yaml") (rlit "yml")))))))))

/-- `/pip\s+install\s+--user\s+/` -/
def pipRe : Re :=
  Re.seq (rlit "pip") (Re.seq wspP (Re.seq (rlit "install")
    (Re.seq wspP (Re.seq (rlit "--user") wspP))))

/-- `/npm\s+install\s+-g/` -/
def npmRe : Re :=
  Re.seq (rlit "npm") (Re.seq wspP (Re.seq (rlit "install") (Re.seq wspP (rlit "-g"))))

/-- `/apt(-get)?\s+(remove|purge)/` -/
def aptRe : Re :=
  Re.seq (rlit "apt") (Re.seq (ropt (rlit "-get"))
    (Re.seq wspP (Re.alt (rlit "remove") (rlit "purge"))))

/-- `/brew\s+uninstall/` -/
def brewRe : Re := Re.seq (rlit "brew") (Re.seq wspP (rlit "uninstall"))

/-- `/systemctl\s+(stop|disable|mask)/` -/
def systemctlRe : Re :=
  Re.seq (rlit "systemctl") (Re.seq wspP
    (Re.alt (rlit "stop") (Re.alt (rlit "disable") (rlit "mask"))))

/-- `/kill\s+-9/` -/
def killRe : Re := Re.seq (rlit "kill") (Re.seq wspP (rlit "-9"))

/-- `/pkill|killall/` : a top-level alternation of two literals. -/
def pkillRe : Re := Re.alt (rlit "pkill") (rlit "killall")

/-- `/rm\s+/` -/
def rmRe : Re := Re.seq (rlit "rm") wspP

/-- `/mv\s+/` -/
def mvRe : Re := Re.seq (rlit "mv") wspP

/-- `/cp\s+-[rf]*/` -/
def cpRe : Re :=
  Re.seq (rlit "cp") (Re.seq wspP (Re.seq (chr '-')
    (Re.star (Re.cls (fun c => c = 'r' ∨ c = 'f')))))

/-- `/>\s+/` -/
def redirRe : Re := Re.seq (chr '>') wspP

/-- `/git\s+(reset|rebase|push\s+-f|push\s+--force)/` -/
def gitRe : Re :=
  Re.seq (rlit "git") (Re.seq wspP (Re.alt (rlit "reset") (Re.alt (rlit "rebase")
    (Re.alt (Re.seq (rlit "push") (Re.seq wspP (rlit "-f")))
      (Re.seq (rlit "push") (Re.seq wspP (rlit "--force")))))))

/-- `/docker\s+(rm|rmi|prune)/` -/
def dockerRe : Re :=
  Re.seq (rlit "docker") (Re.seq wspP
    (Re.alt (rlit "rm") (Re.alt (rlit "rmi") (rlit "prune"))))

/-- The `DANGER_PATTERNS` table of `severity.ts`, in source order. -/
def DANGER_PATTERNS : List DangerEntry := [
  ⟨rmRootTest, .critical, "Attempts to delete root filesystem"⟩,
  ⟨reTest rmNoPreserveRe, .critical, "Bypasses root deletion protection"⟩,
  ⟨reTest mkfsRe, .critical, "Formats a filesystem, destroying all data"⟩,
  ⟨reTest ddRe, .critical, "Writes directly to disk, can destroy data"⟩,
  ⟨reTest forkBombRe, .critical, "Fork bomb - will crash the system"⟩,
  ⟨reTest redirDevRe, .critical, "Writes directly to disk device"⟩,
  ⟨reTest mvDevNullRe, .critical, "Moves files to /dev/null, destroying them"⟩,
  ⟨reTest sudoRmRe, .high, "Elevated recursive/force deletion"⟩,
  ⟨reTest chmodRe, .high, "Sets dangerous file permissions"⟩,
  ⟨reTest chownRe, .high, "Recursive ownership change on root"⟩,
  ⟨reTest redirEtcRe, .high, "Overwrites system configuration"⟩,
  ⟨reTest curlPipeRe, .high, "Pipes remote script to shell"⟩,
  ⟨reTest wgetPipeRe, .high, "Pipes remote script to shell"⟩,
  ⟨reTest evalRe, .high, "Executes dynamically generated code"⟩,
  ⟨reTest forkBombVariantRe, .high, "Fork bomb pattern variant"⟩,
  ⟨reTest rmRfRe, .medium, "Recursive/force file deletion"⟩,
  ⟨reTest rmStarRe, .medium, "Deletes multiple files with wildcard"⟩,
  ⟨reTest sudoRe, .medium, "Runs command with elevated privileges"⟩,
  ⟨reTest redirConfRe, .medium, "Overwrites configuration file"⟩,
  ⟨reTest pipRe, .medium, "Installs Python packages globally"⟩,
  ⟨reTest npmRe, .medium, "Installs npm packages globally"⟩,
  ⟨reTest aptRe, .medium, "Removes system packages"⟩,
  ⟨reTest brewRe, .medium, "Removes Homebrew packages"⟩,
  ⟨reTest systemctlRe, .medium, "Modifies system services"⟩,
  ⟨reTest killRe, .medium, "Force kills processes"⟩,
  ⟨reTest pkillRe, .medium, "Kills processes by name"⟩,
  ⟨reTest rmRe, .low, "Deletes files"⟩,
  ⟨reTest mvRe, .low, "Moves/renames files"⟩,
  ⟨reTest cpRe, .low, "Copies files (may overwrite)"⟩,
  ⟨reTest redirRe, .low, "Redirects output (may overwrite file)"⟩,
  ⟨reTest gitRe, .low, "Potentially destructive git operation"⟩,
  ⟨reTest dockerRe, .low, "Removes Docker resources"⟩]

/-- `severityOrder` from `checkSeverity`. -/
def severityOrder : List SeverityLevel :=
  [.safe, .low, .medium, .high, .critical]

/-- `severityOrder.indexOf`, written directly. -/
def lvIdx : SeverityLevel → Nat
  | .safe => 0
  | .low => 1
  | .medium => 2
  | .high => 3
  | .critical => 4

/-- Deduplication in first-seen order (`[...new Set(warnings)]`). -/
def setDedup (seen : List String) : List String → List String
  | [] => []
  | x :: xs => if x ∈ seen then setDedup seen xs else x :: setDedup (x :: seen) xs

/-- The loop body of `checkSeverity`, acting on the
`(warnings, highestLevel, primaryReason)` accumulator. -/
def sevStep (command : String) (acc : List String × SeverityLevel × String)
    (p : DangerEntry) : List String × SeverityLevel × String :=
  if p.test command then
    let warnings := acc.1 ++ [p.reason]
    if severityOrder.indexOf acc.2.1 < severityOrder.indexOf p.level then
      (warnings, p.level, p.reason)
    else (warnings, acc.2)
  else acc

/-- `checkSeverity` from `severity.ts`: every table pattern is tested; the
highest severity wins; the reason follows the running maximum; warnings are
deduplicated at the end (the fold result is repeated instead of let-bound,
for ease of rewriting). -/
def checkSeverity (command : String) : SeverityCheck :=
  ⟨(DANGER_PATTERNS.foldl (sevStep command) ([], .safe, "")).2.1,
   (DANGER_PATTERNS.foldl (sevStep command) ([], .safe, "")).2.2,
   setDedup [] (DANGER_PATTERNS.foldl (sevStep command) ([], .safe, "")).1⟩

/-- `requiresConfirmation` from `severity.ts`. -/
def requiresConfirmation (level : SeverityLevel) : Bool :=
  level = .critical ∨ level = .high

/-! ## Claim-side characterization of the classifier -/

/-- The table entries whose pattern matches the command. -/
def sevMatches (c : String) : List DangerEntry :=
  DANGER_PATTERNS.filter (fun p => p.test c)

/-- Maximum of two levels in the `severityOrder` order. -/
def lmax (a b : SeverityLevel) : SeverityLevel :=
  if lvIdx a < lvIdx b then b else a

/-- The maximum severity among all matching entries (`safe` when none match). -/
def maxMatchedLevel (c : String) : SeverityLevel :=
  (sevMatches c).foldl (fun a p => lmax a p.level) .safe

/-- The reason of the first entry, in table order, whose level is the maximum
matched level (empty when no entry matches). -/
def firstMaxReason (c : String) : String :=
  ((sevMatches c).find? (fun p => p.level = maxMatchedLevel c)).elim "" (fun p => p.reason)

/-- The deduplicated reasons of every matching entry, in first-seen order. -/
def allMatchedReasons (c : String) : List String :=
  setDedup [] ((sevMatches c).map (fun p => p.reason))

lemma indexOf_lv (a : SeverityLevel) : severityOrder.indexOf a = lvIdx a := by
  cases a <;> rfl

lemma lvIdx_inj {a b : SeverityLevel} (h : lvIdx a = lvIdx b) : a = b := by
  cases a <;> cases b <;> simp_all [lvIdx]

lemma lvIdx_lmax (a b : SeverityLevel) : lvIdx (lmax a b) = max (lvIdx a) (lvIdx b) := by
  unfold lmax; split <;> omega

lemma lvIdx_eq_zero {a : SeverityLevel} : lvIdx a = 0 ↔ a = .safe := by
  cases a <;> simp [lvIdx]

/-- The `(level, reason)` part of the loop body, without the warnings. -/
def sevCore (c : String) (s : SeverityLevel × String) (p : DangerEntry) :
    SeverityLevel × String :=
  if p.test c then
    (if lvIdx s.1 < lvIdx p.level then (p.level, p.reason) else s)
  else s

lemma foldl_sevStep (c : String) (ps : List DangerEntry) (w : List String)
    (s : SeverityLevel × String) :
    ps.foldl (sevStep c) (w, s) =
      (w ++ (ps.filter (fun p => p.test c)).map (fun p => p.reason),
       ps.foldl (sevCore c) s) := by
  induction ps generalizing w s with
  | nil => simp
  | cons p tl ih =>
    by_cases h : p.test c
    · by_cases h2 : lvIdx s.1 < lvIdx p.level
      · have hstep : sevStep c (w, s) p = (w ++ [p.reason], (p.level, p.reason)) := by
          simp [sevStep, h, indexOf_lv, h2]
        have hcore : sevCore c s p = (p.level, p.reason) := by
          simp [sevCore, h, h2]
        simp [List.foldl_cons, hstep, hcore, ih, List.filter_cons, h]
      · have hstep : sevStep c (w, s) p = (w ++ [p.reason], s) := by
          simp [sevStep, h, indexOf_lv, h2]
        have hcore : sevCore c s p = s := by
          simp [sevCore, h, h2]
        simp [List.foldl_cons, hstep, hcore, ih, List.filter_cons, h]
    · have hstep : sevStep c (w, s) p = (w, s) := by simp [sevStep, h]
      have hcore : sevCore c s p = s := by simp [sevCore, h]
      simp [List.foldl_cons, hstep, hcore, ih, List.filter_cons, h]

lemma foldl_sevCore_level (c : String) (ps : List DangerEntry) (s : SeverityLevel × String) :
    (ps.foldl (sevCore c) s).1 =
      (ps.filter (fun p => p.test c)).foldl (fun a p => lmax a p.level) s.1 := by
  induction ps generalizing s with
  | nil => rfl
  | cons p tl ih =>
    by_cases h : p.test c
    · have hcore : (sevCore c s p).1 = lmax s.1 p.level := by
        simp only [sevCore, h, if_true, lmax]
        split <;> simp_all
      rw [List.foldl_cons, ih, List.filter_cons]
      simp only [h, if_true, List.foldl_cons, hcore]
    · have hcore : sevCore c s p = s := by simp [sevCore, h]
      rw [List.foldl_cons, ih, List.filter_cons, hcore]
      simp [h]

lemma entries_foldl_base_le (l : List DangerEntry) (b : SeverityLevel) :
    lvIdx b ≤ lvIdx (l.foldl (fun a p => lmax a p.level) b) := by
  induction l generalizing b with
  | nil => simp
  | cons p tl ih =>
    refine le_trans ?_ (ih (lmax b p.level))
    rw [lvIdx_lmax]; omega

lemma entries_foldl_mem_le (l : List DangerEntry) :
    ∀ (b : SeverityLevel) (p : DangerEntry), p ∈ l →
      lvIdx p.level ≤ lvIdx (l.foldl (fun a q => lmax a q.level) b) := by
  induction l with
  | nil => intro b p hp; cases hp
  | cons q tl ih =>
    intro b p hp
    rcases List.mem_cons.mp hp with rfl | hp'
    · rw [List.foldl_cons]
      refine le_trans ?_ (entries_foldl_base_le tl (lmax b p.level))
      rw [lvIdx_lmax]; omega
    · exact ih (lmax b q.level) p hp'

lemma entries_foldl_attain (l : List DangerEntry) (b : SeverityLevel) :
    l.foldl (fun a p => lmax a p.level) b = b ∨
      ∃ p ∈ l, p.level = l.foldl (fun a p => lmax a p.level) b := by
  induction l generalizing b with
  | nil => left; rfl
  | cons q tl ih =>
    rw [List.foldl_cons]
    rcases ih (lmax b q.level) with h | h
    · rw [h]
      unfold lmax
      split
      · right; exact ⟨q, List.mem_cons_self _ _, rfl⟩
      · left; rfl
    · right
      obtain ⟨p, hp, hlev⟩ := h
      exact ⟨p, List.mem_cons_of_mem _ hp, hlev⟩

lemma find?_isSome_of_exists (l : List DangerEntry) (f : DangerEntry → Bool)
    (h : ∃ p ∈ l, f p = true) : ∃ q, l.find? f = some q ∧ f q = true := by
  induction l with
  | nil => simp at h
  | cons x tl ih =>
    by_cases hx : f x = true
    · exact ⟨x, by simp [List.find?_cons, hx], hx⟩
    · obtain ⟨p, hp, hfp⟩ := h
      rcases List.mem_cons.mp hp with rfl | hp'
      · exact absurd hfp hx
      · obtain ⟨q, hq, hfq⟩ := ih ⟨p, hp', hfp⟩
        exact ⟨q, by simp [List.find?_cons, hx, hq], hfq⟩

/-- The level after the fold, starting at `b`. -/
def sevLevelAfter (c : String) (ps : List DangerEntry) (b : SeverityLevel) : SeverityLevel :=
  (ps.filter (fun p => p.test c)).foldl (fun a p => lmax a p.level) b

lemma foldl_sevCore_reason (c : String) (ps : List DangerEntry) :
    ∀ s : SeverityLevel × String, (ps.foldl (sevCore c) s).2 =
      (if lvIdx s.1 < lvIdx (sevLevelAfter c ps s.1) then
        ((ps.filter (fun p => p.test c)).find?
            (fun p => p.level = sevLevelAfter c ps s.1)).elim s.2 (fun p => p.reason)
       else s.2) := by
  induction ps with
  | nil => intro s; simp [sevLevelAfter]
  | cons p tl ih =>
    intro s
    by_cases h : p.test c
    · have hfil : (p :: tl).filter (fun q => q.test c) =
          p :: tl.filter (fun q => q.test c) := by
        simp [List.filter_cons, h]
      by_cases h2 : lvIdx s.1 < lvIdx p.level
      · -- update step: accumulator becomes (p.level, p.reason)
        have hcore : sevCore c s p = (p.level, p.reason) := by simp [sevCore, h, h2]
        have hL : sevLevelAfter c (p :: tl) s.1 = sevLevelAfter c tl p.level := by
          unfold sevLevelAfter
          rw [hfil, List.foldl_cons]
          congr 1
          unfold lmax; rw [if_pos h2]
        have hbase : lvIdx p.level ≤ lvIdx (sevLevelAfter c tl p.level) :=
          entries_foldl_base_le _ _
        rw [List.foldl_cons, hcore, ih (p.level, p.reason), hL, hfil]
        dsimp only
        by_cases h3 : lvIdx p.level < lvIdx (sevLevelAfter c tl p.level)
        · -- the head is not the maximum; the maximum is attained in the tail
          have hne : ¬ (p.level = sevLevelAfter c tl p.level) := by
            intro he
            have := congrArg lvIdx he
            omega
          rcases entries_foldl_attain (tl.filter (fun q => q.test c)) p.level with hat | hat
          · exfalso
            have := congrArg lvIdx hat
            unfold sevLevelAfter at h3
            omega
          · obtain ⟨q, hq, hqlev⟩ := hat
            have hqlev' : (fun r : DangerEntry =>
                decide (r.level = sevLevelAfter c tl p.level)) q = true := by
              simp only [decide_eq_true_eq]
              exact hqlev
            obtain ⟨q', hq', hfq'⟩ := find?_isSome_of_exists _
              (fun r : DangerEntry => decide (r.level = sevLevelAfter c tl p.level))
              ⟨q, hq, hqlev'⟩
            rw [if_pos h3, if_pos (lt_trans h2 h3),
              List.find?_cons_of_neg _ (by simpa using hne), hq']
            simp
        · -- the head attains the maximum
          have heq : p.level = sevLevelAfter c tl p.level := lvIdx_inj (by omega)
          rw [if_neg h3, if_pos (by omega),
            List.find?_cons_of_pos _ (by simpa using heq)]
          simp
      · -- matched but does not exceed the running maximum
        have hcore : sevCore c s p = s := by simp [sevCore, h, h2]
        have hL : sevLevelAfter c (p :: tl) s.1 = sevLevelAfter c tl s.1 := by
          unfold sevLevelAfter
          rw [hfil, List.foldl_cons]
          congr 1
          unfold lmax; rw [if_neg h2]
        rw [List.foldl_cons, hcore, ih s, hL, hfil]
        by_cases h3 : lvIdx s.1 < lvIdx (sevLevelAfter c tl s.1)
        · have hne : ¬ (p.level = sevLevelAfter c tl s.1) := by
            intro he
            have := congrArg lvIdx he
            omega
          rw [if_pos h3, if_pos h3, List.find?_cons_of_neg _ (by simpa using hne)]
        · rw [if_neg h3, if_neg h3]
    · have hcore : sevCore c s p = s := by simp [sevCore, h]
      have hfil : (p :: tl).filter (fun q => q.test c) =
          tl.filter (fun q => q.test c) := by
        simp [List.filter_cons, h]
      have hL : sevLevelAfter c (p :: tl) s.1 = sevLevelAfter c tl s.1 := by
        unfold sevLevelAfter
        rw [hfil]
      rw [List.foldl_cons, hcore, ih s, hL, hfil]

lemma no_safe_all :
    DANGER_PATTERNS.all (fun p => decide (p.level ≠ SeverityLevel.safe)) = true := by
  decide

lemma no_safe_entry {p : DangerEntry} (hp : p ∈ DANGER_PATTERNS) :
    p.level ≠ SeverityLevel.safe := by
  have := List.all_eq_true.mp no_safe_all p hp
  simpa using this

lemma checkSeverity_level (c : String) :
    (checkSeverity c).level = maxMatchedLevel c := by
  unfold checkSeverity maxMatchedLevel sevMatches
  rw [show (([], SeverityLevel.safe, "") :
        List String × SeverityLevel × String) = (([] : List String), (SeverityLevel.safe, "")) from rfl]
  rw [foldl_sevStep]
  exact foldl_sevCore_level c DANGER_PATTERNS (SeverityLevel.safe, "")

lemma checkSeverity_warnings (c : String) :
    (checkSeverity c).warnings = allMatchedReasons c := by
  unfold checkSeverity allMatchedReasons sevMatches
  rw [show (([], SeverityLevel.safe, "") :
        List String × SeverityLevel × String) = (([] : List String), (SeverityLevel.safe, "")) from rfl]
  rw [foldl_sevStep]
  simp

lemma maxMatchedLevel_safe_iff (c : String) :
    maxMatchedLevel c = .safe ↔ sevMatches c = [] := by
  constructor
  · intro h
    by_contra hne
    obtain ⟨p, hp⟩ := List.exists_mem_of_ne_nil _ hne
    have hle : lvIdx p.level ≤ lvIdx (maxMatchedLevel c) :=
      entries_foldl_mem_le _ _ _ hp
    rw [h] at hle
    have hz : lvIdx p.level = 0 := by simpa [lvIdx] using hle
    have hsafe : p.level = .safe := lvIdx_eq_zero.mp hz
    exact no_safe_entry (List.mem_of_mem_filter hp) hsafe
  · intro h
    unfold maxMatchedLevel
    rw [h]
    rfl

lemma checkSeverity_reason (c : String) :
    (checkSeverity c).reason = firstMaxReason c := by
  have hbody : (checkSeverity c).reason =
      (DANGER_PATTERNS.foldl (sevCore c) (SeverityLevel.safe, "")).2 := by
    unfold checkSeverity
    rw [show (([], SeverityLevel.safe, "") :
          List String × SeverityLevel × String) = (([] : List String), (SeverityLevel.safe, "")) from rfl]
    rw [foldl_sevStep]
  rw [hbody, foldl_sevCore_reason]
  have hL : sevLevelAfter c DANGER_PATTERNS SeverityLevel.safe = maxMatchedLevel c := rfl
  by_cases h : lvIdx SeverityLevel.safe < lvIdx (sevLevelAfter c DANGER_PATTERNS SeverityLevel.safe)
  · rw [if_pos h]
    unfold firstMaxReason
    rw [← hL]
    rfl
  · rw [if_neg h]
    -- no match: the maximum stayed at `safe`, so no entry matches and the
    -- claim-side reason is also empty
    have hz : lvIdx (sevLevelAfter c DANGER_PATTERNS SeverityLevel.safe) = 0 := by
      have := entries_foldl_base_le (DANGER_PATTERNS.filter (fun p => p.test c)) SeverityLevel.safe
      simp only [lvIdx] at h ⊢
      omega
    have hsafe : maxMatchedLevel c = .safe := lvIdx_eq_zero.mp (hL ▸ hz)
    have hnil : sevMatches c = [] := (maxMatchedLevel_safe_iff c).mp hsafe
    unfold firstMaxReason
    rw [hnil]
    rfl

/-- Claim C1, packaged: `checkSeverity` equals its claim-side characterization,
the returned level bounds every matching entry's level, is `safe` exactly when
nothing matches, and is attained by a matching entry otherwise. -/
theorem checkSeverity_spec (c : String) :
    checkSeverity c = ⟨maxMatchedLevel c, firstMaxReason c, allMatchedReasons c⟩ ∧
    (∀ p ∈ sevMatches c, lvIdx p.level ≤ lvIdx (checkSeverity c).level) ∧
    ((checkSeverity c).level = .safe ↔ sevMatches c = []) ∧
    ((checkSeverity c).level ≠ .safe →
      ∃ p ∈ sevMatches c, p.level = (checkSeverity c).level) := by
  refine ⟨?_, ?_, ?_, ?_⟩
  · cases hc : checkSeverity c with
    | mk lv rsn ws =>
      have h1 := checkSeverity_level c
      have h2 := checkSeverity_reason c
      have h3 := checkSeverity_warnings c
      rw [hc] at h1 h2 h3
      simp only at h1 h2 h3
      rw [h1, h2, h3]
  · intro p hp
    rw [checkSeverity_level]
    exact entries_foldl_mem_le _ _ _ hp
  · rw [checkSeverity_level]
    exact maxMatchedLevel_safe_iff c
  · intro hne
    rw [checkSeverity_level] at hne ⊢
    rcases entries_foldl_attain (DANGER_PATTERNS.filter (fun p => p.test c)) .safe with h | h
    · exact absurd h hne
    · exact h

/-- Witness for C1 at the concrete command `rm -rf /`, discharging the
non-`safe` hypothesis of the attainment clause. -/
theorem checkSeverity_spec_witness :
    ∃ p ∈ sevMatches "rm -rf /", p.level = (checkSeverity "rm -rf /").level :=
  (checkSeverity_spec "rm -rf /").2.2.2 (by decide)

/-! ## JSON values and `JSON.parse`

`JValue` is the result type of `JSON.parse`; the parser follows the JSON
grammar (strict: no trailing garbage, no leading zeros, control characters
forbidden inside strings, the standard escape set). Numbers are modelled as
exact rationals; the double rounding JS applies on parse is not modelled
(all inputs exercised here are double-exact). Lone-surrogate `\u` escapes
map through `Char.ofNat`'s total default. -/

inductive JValue : Type
  | null : JValue
  | bool : Bool → JValue
  | num : ℚ → JValue
  | str : String → JValue
  | arr : List JValue → JValue
  | obj : List (String × JValue) → JValue

/-- JSON-grammar whitespace (space, tab, newline, carriage return only). -/
def isJsonWs (c : Char) : Bool :=
  c = ' ' ∨ c = '\t' ∨ c = '\n' ∨ c = '\r'

/-- The double-quote character. -/
def dq : Char := Char.ofNat 34

/-- The single-quote character. -/
def sq : Char := Char.ofNat 39

/-- The backslash character. -/
def bsl : Char := Char.ofNat 92

def hexVal (c : Char) : Option Nat :=
  if '0' ≤ c ∧ c ≤ '9' then some (c.toNat - '0'.toNat)
  else if 'a' ≤ c ∧ c ≤ 'f' then some (c.toNat - 'a'.toNat + 10)
  else if 'A' ≤ c ∧ c ≤ 'F' then some (c.toNat - 'A'.toNat + 10)
  else none

/-- JSON string escape characters (after a backslash). -/
def escChar (c : Char) : Option Char :=
  if c = dq then some dq
  else if c = bsl then some bsl
  else if c = '/' then some '/'
  else if c = 'b' then some (Char.ofNat 8)
  else if c = 'f' then some (Char.ofNat 12)
  else if c = 'n' then some '\n'
  else if c = 'r' then some '\r'
  else if c = 't' then some '\t'
  else none

/-- Parse the body of a JSON string (after the opening quote); returns the
content and the remainder after the closing quote. The fuel argument (any
bound above the input length) keeps the recursion structural. -/
def parseStringChars (fuel : Nat) (l : List Char) : Option (List Char × List Char) :=
  match fuel, l with
  | 0, _ => none
  | _, [] => none
  | f + 1, c :: rest =>
    if c = dq then some ([], rest)
    else if c = bsl then
      match rest with
      | [] => none
      | e :: rest2 =>
        if e = 'u' then
          match rest2 with
          | a :: b :: c2 :: d :: rest3 =>
            match hexVal a, hexVal b, hexVal c2, hexVal d with
            | some ha, some hb, some hc, some hd =>
              match parseStringChars f rest3 with
              | some (cs, r) =>
                some (Char.ofNat (((ha * 16 + hb) * 16 + hc) * 16 + hd) :: cs, r)
              | none => none
            | _, _, _, _ => none
          | _ => none
        else
          match escChar e with
          | some ec =>
            match parseStringChars f rest2 with
            | some (cs, r) => some (ec :: cs, r)
            | none => none
          | none => none
    else if c.toNat < 32 then none
    else
      match parseStringChars f rest with
      | some (cs, r) => some (c :: cs, r)
      | none => none

def digitsToNat (ds : List Char) : Nat :=
  ds.foldl (fun acc c => acc * 10 + (c.toNat - '0'.toNat)) 0

def isDigit (c : Char) : Bool := '0' ≤ c ∧ c ≤ '9'

/-- Build the exact rational `(sign) mant * 10^(esign e) / 10^scale` from
the integer mantissa model (all arithmetic on `Nat` and `Int`, finished by
one `Rat.divInt`, so the kernel can evaluate it). -/
def mkDecimal (neg : Bool) (mant : Nat) (scale : Nat) (eneg : Bool) (e : Nat) : ℚ :=
  let mantI : Int := if neg then -(Int.ofNat mant) else Int.ofNat mant
  if eneg then Rat.divInt mantI (Int.ofNat (10 ^ (scale + e)))
  else Rat.divInt (mantI * Int.ofNat (10 ^ e)) (Int.ofNat (10 ^ scale))

/-- Parse a JSON number at the head of the input:
`-?(0|[1-9][0-9]*)(\.[0-9]+)?([eE][+-]?[0-9]+)?`, as an exact rational. -/
def parseJsonNumber (l : List Char) : Option (JValue × List Char) :=
  let (neg, l1) := match l with
    | '-' :: r => (true, r)
    | _ => (false, l)
  let ds := l1.takeWhile isDigit
  let r1 := l1.dropWhile isDigit
  if ds = [] then none
  else if 1 < ds.length ∧ ds.head? = some '0' then none
  else
    let fracStep : Option (Nat × Nat × List Char) := match r1 with
      | '.' :: rr =>
        let fs := rr.takeWhile isDigit
        if fs = [] then none
        else some (digitsToNat ds * 10 ^ fs.length + digitsToNat fs, fs.length,
          rr.dropWhile isDigit)
      | _ => some (digitsToNat ds, 0, r1)
    match fracStep with
    | none => none
    | some (mant, scale, r2) =>
      let expStep : Option (Bool × Nat × List Char) := match r2 with
        | 'e' :: rr => parseExpTail rr
        | 'E' :: rr => parseExpTail rr
        | _ => some (false, 0, r2)
      match expStep with
      | none => none
      | some (eneg, e, r3) => some (.num (mkDecimal neg mant scale eneg e), r3)
where
  parseExpTail (rr : List Char) : Option (Bool × Nat × List Char) :=
    let (eneg, rr1) := match rr with
      | '+' :: t => (false, t)
      | '-' :: t => (true, t)
      | _ => (false, rr)
    let es := rr1.takeWhile isDigit
    if es = [] then none
    else some (eneg, digitsToNat es, rr1.dropWhile isDigit)

mutual

/-- Parse a JSON value at the head of the input (leading whitespace allowed). -/
def parseJsonValue (fuel : Nat) (l : List Char) : Option (JValue × List Char) :=
  match fuel with
  | 0 => none
  | f + 1 =>
    let l1 := l.dropWhile isJsonWs
    match l1 with
    | 'n' :: 'u' :: 'l' :: 'l' :: rest => some (.null, rest)
    | 't' :: 'r' :: 'u' :: 'e' :: rest => some (.bool true, rest)
    | 'f' :: 'a' :: 'l' :: 's' :: 'e' :: rest => some (.bool false, rest)
    | '[' :: rest => parseJsonArray f rest
    | '{' :: rest => parseJsonObj f rest
    | c :: rest =>
      if c = dq then
        match parseStringChars (rest.length + 1) rest with
        | some (cs, r) => some (.str ⟨cs⟩, r)
        | none => none
      else parseJsonNumber l1
    | [] => none

/-- After `[`: the element list (possibly empty) and the closing bracket. -/
def parseJsonArray (fuel : Nat) (l : List Char) : Option (JValue × List Char) :=
  match fuel with
  | 0 => none
  | f + 1 =>
    let l1 := l.dropWhile isJsonWs
    match l1 with
    | ']' :: rest => some (.arr [], rest)
    | _ =>
      match parseJsonValue f l1 with
      | some (v, r) =>
        match parseJsonArrayMore f r with
        | some (vs, r2) => some (.arr (v :: vs), r2)
        | none => none
      | none => none

def parseJsonArrayMore (fuel : Nat) (l : List Char) : Option (List JValue × List Char) :=
  match fuel with
  | 0 => none
  | f + 1 =>
    let l1 := l.dropWhile isJsonWs
    match l1 with
    | ']' :: rest => some ([], rest)
    | ',' :: rest =>
      match parseJsonValue f rest with
      | some (v, r) =>
        match parseJsonArrayMore f r with
        | some (vs, r2) => some (v :: vs, r2)
        | none => none
      | none => none
    | _ => none

/-- After an opening brace: the field list (possibly empty) and the closing
brace. -/
def parseJsonObj (fuel : Nat) (l : List Char) : Option (JValue × List Char) :=
  match fuel with
  | 0 => none
  | f + 1 =>
    let l1 := l.dropWhile isJsonWs
    match l1 with
    | '}' :: rest => some (.obj [], rest)
    | _ =>
      match parseJsonMember f l1 with
      | some (kv, r) =>
        match parseJsonObjMore f r with
        | some (kvs, r2) => some (.obj (kv :: kvs), r2)
        | none => none
      | none => none

def parseJsonObjMore (fuel : Nat) (l : List Char) :
    Option (List (String × JValue) × List Char) :=
  match fuel with
  | 0 => none
  | f + 1 =>
    let l1 := l.dropWhile isJsonWs
    match l1 with
    | '}' :: rest => some ([], rest)
    | ',' :: rest =>
      match parseJsonMember f rest with
      | some (kv, r) =>
        match parseJsonObjMore f r with
        | some (kvs, r2) => some (kv :: kvs, r2)
        | none => none
      | none => none
    | _ => none

/-- A single `"key": value` member. -/
def parseJsonMember (fuel : Nat) (l : List Char) :
    Option ((String × JValue) × List Char) :=
  match fuel with
  | 0 => none
  | f + 1 =>
    let l1 := l.dropWhile isJsonWs
    match l1 with
    | c :: rest =>
      if c = dq then
        match parseStringChars (rest.length + 1) rest with
        | some (ks, r) =>
          let r1 := r.dropWhile isJsonWs
          match r1 with
          | ':' :: r2 =>
            match parseJsonValue f r2 with
            | some (v, r3) => some ((⟨ks⟩, v), r3)
            | none => none
          | _ => none
        | none => none
      else none
    | [] => none

end

/-- `JSON.parse`: whole-input parse, trailing whitespace only. -/
def jsonParse (s : String) : Option JValue :=
  match parseJsonValue (s.data.length + 1) s.data with
  | some (v, rest) => if rest.dropWhile isJsonWs = [] then some v else none
  | none => none

/-- JS property access on a parse result: objects look keys up with
last-duplicate-wins (as `JSON.parse` builds them); everything else has no
such data property (`undefined`). -/
def objGet (v : JValue) (key : String) : Option JValue :=
  match v with
  | .obj fields => ((fields.reverse).find? (fun kv => kv.1 = key)).map (fun kv => kv.2)
  | _ => none

/-! ## JS number and string coercions

`JSNum` is the value space of a JS number as far as this code needs it; JSON
parse results never contain `nan`, but `Number(...)` conversions can produce
it, and `Number("1e999")`-style overflow is modelled with the two infinities.
-/

inductive JSNum : Type
  | num : ℚ → JSNum
  | nan : JSNum
  | inf : JSNum
  | negInf : JSNum
deriving DecidableEq, Repr

def stripTrailingZeros (l : List Char) : List Char :=
  (l.reverse.dropWhile (· = '0')).reverse

/-- Decimal rendering of an exact rational whose denominator divides a power
of ten (every double-exact decimal literal in scope). JS's shortest-roundtrip
double formatting is not modelled beyond this; other denominators render as a
fraction and are never exercised. -/
def qToString (q : ℚ) : String :=
  if q.den = 1 then
    (if q.num < 0 then "-" else "") ++ Nat.repr q.num.natAbs
  else
    match (List.range 21).find? (fun k => 0 < k ∧ (10 ^ k) % q.den = 0) with
    | some k =>
      let scaled := q.num.natAbs * (10 ^ k) / q.den
      let ipart := scaled / 10 ^ k
      let fracDs := Nat.repr (scaled % 10 ^ k)
      let padded := List.replicate (k - fracDs.length) '0' ++ fracDs.data
      (if q.num < 0 then "-" else "") ++ Nat.repr ipart ++ "." ++
        ⟨stripTrailingZeros padded⟩
    | none =>
      (if q.num < 0 then "-" else "") ++ Nat.repr q.num.natAbs ++ "/" ++ Nat.repr q.den

/-- `Number(string)` (lenient ECMAScript string-to-number): empty/whitespace
is 0; optional sign; `Infinity`; decimal with optional fraction/exponent;
`0x`/`0o`/`0b` radix literals (signless); anything else is NaN. -/
def strToNum (s : String) : JSNum :=
  let l := jsTrimList s.data
  if l = [] then .num 0
  else
    let radix : Option (Nat × List Char) := match l with
      | '0' :: 'x' :: r => some (16, r)
      | '0' :: 'X' :: r => some (16, r)
      | '0' :: 'o' :: r => some (8, r)
      | '0' :: 'O' :: r => some (8, r)
      | '0' :: 'b' :: r => some (2, r)
      | '0' :: 'B' :: r => some (2, r)
      | _ => none
    match radix with
    | some (b, r) =>
      if r ≠ [] ∧ r.all (fun c => (hexVal c).elim false (· < b)) then
        .num (Rat.divInt (Int.ofNat (r.foldl (fun acc c => acc * b + ((hexVal c).getD 0)) 0)) 1)
      else .nan
    | none =>
      let (neg, l1) := match l with
        | '-' :: r => (true, r)
        | '+' :: r => (false, r)
        | _ => (false, l)
      if l1 = "Infinity".data then (if neg then .negInf else .inf)
      else
        let ds := l1.takeWhile isDigit
        let r1 := l1.dropWhile isDigit
        let fracStep : Option (Nat × Nat × List Char) := match r1 with
          | '.' :: rr =>
            let fs := rr.takeWhile isDigit
            if ds = [] ∧ fs = [] then none
            else some (digitsToNat ds * 10 ^ fs.length + digitsToNat fs, fs.length,
              rr.dropWhile isDigit)
          | _ => if ds = [] then none else some (digitsToNat ds, 0, r1)
        match fracStep with
        | none => .nan
        | some (mant, scale, r2) =>
          let expStep : Option (Bool × Nat × List Char) := match r2 with
            | 'e' :: rr => strExpTail rr
            | 'E' :: rr => strExpTail rr
            | _ => some (false, 0, r2)
          match expStep with
          | none => .nan
          | some (eneg, e, r3) =>
            if r3 = [] then .num (mkDecimal neg mant scale eneg e) else .nan
where
  strExpTail (rr : List Char) : Option (Bool × Nat × List Char) :=
    let (eneg, rr1) := match rr with
      | '+' :: t => (false, t)
      | '-' :: t => (true, t)
      | _ => (false, rr)
    let es := rr1.takeWhile isDigit
    if es = [] then none
    else some (eneg, digitsToNat es, rr1.dropWhile isDigit)

/-- `String(v)` on a JSON parse result. Arrays join one level deep (JS joins
recursively; nothing here ever stringifies nested arrays). -/
def jsToString (v : JValue) : String :=
  match v with
  | .null => "null"
  | .bool b => if b then "true" else "false"
  | .num q => qToString q
  | .str s => s
  | .obj _ => "[object Object]"
  | .arr l => String.intercalate "," (l.map (fun e =>
      match e with
      | .null => ""
      | .bool b => if b then "true" else "false"
      | .num q => qToString q
      | .str s => s
      | .obj _ => "[object Object]"
      | .arr _ => ""))

/-- JS truthiness of a JSON parse result (`NaN` cannot occur in one). -/
def jsTruthy (v : JValue) : Bool :=
  match v with
  | .null => false
  | .bool b => b
  | .num q => q ≠ 0
  | .str s => s ≠ ""
  | .arr _ => true
  | .obj _ => true

/-- `Number(x)` where `x` is an absent (`undefined`) or JSON-valued property:
arrays convert through their joined string form. -/
def jsNumber (o : Option JValue) : JSNum :=
  match o with
  | none => .nan
  | some .null => .num 0
  | some (.bool b) => .num (if b then 1 else 0)
  | some (.num q) => .num q
  | some (.str s) => strToNum s
  | some (.arr []) => .num 0
  | some (.arr [v]) =>
    (match v with
     | .null => .num 0
     | w => strToNum (jsToString w))
  | some (.arr _) => .nan
  | some (.obj _) => .nan

/-! ## `parseJSON` of `base.ts` (markdown stripping + `JSON.parse`) -/

/-- Three backticks at the head of the list. -/
def fence3 (l : List Char) : Bool :=
  match l with
  | a :: b :: c :: _ => a = btick ∧ b = btick ∧ c = btick
  | _ => false

/-- The lazily-matched capture of `([\s\S]*?)` up to the earliest closing
triple backtick; `none` when no closing fence follows. -/
def findClose : List Char → Option (List Char)
  | [] => none
  | c :: rest =>
    if fence3 (c :: rest) then some []
    else
      match findClose rest with
      | some cs => some (c :: cs)
      | none => none

/-- Attempt the fence regex `/```(?:json)?\s*([\s\S]*?)```/` at this exact
position: an opening fence, an optional literal `json`, whitespace, then the
capture up to the earliest closing fence. -/
def fenceAt (l : List Char) : Option (List Char) :=
  match l with
  | c1 :: c2 :: c3 :: rest =>
    if c1 = btick ∧ c2 = btick ∧ c3 = btick then
      let r1 := match rest with
        | 'j' :: 's' :: 'o' :: 'n' :: r => r
        | _ => rest
      findClose (r1.dropWhile isJsWs)
    else none
  | _ => none

/-- The first position where the fence regex matches (regex search order). -/
def codeBlockSearch : List Char → Option (List Char)
  | [] => none
  | c :: rest =>
    match fenceAt (c :: rest) with
    | some content => some content
    | none => codeBlockSearch rest

/-- `/\{[\s\S]*\}/`: from the first opening brace to the last closing brace
after it. -/
def braceSpan (l : List Char) : Option (List Char) :=
  match l.findIdx? (· = '{') with
  | none => none
  | some i =>
    match l.reverse.findIdx? (· = '}') with
    | none => none
    | some jr =>
      let j := l.length - 1 - jr
      if i < j then some ((l.drop i).take (j - i + 1)) else none

/-- `parseJSON` from `base.ts`: trim, strip a markdown code-block wrapper,
locate the outermost brace span, `JSON.parse` it; `none` models the thrown
error. -/
def parseJSON (text : String) : Option JValue :=
  let cleanText := jsTrimList text.data
  let cleanText2 := match codeBlockSearch cleanText with
    | some inner => jsTrimList inner
    | none => cleanText
  match braceSpan cleanText2 with
  | some jsonChars => jsonParse ⟨jsonChars⟩
  | none => none

/-! ## Verification (`base.ts` `verifyCommand`, `services` `verifyCommand`) -/

structure VerificationResult where
  confidence : ℚ
  isCorrect : Bool
  issues : Option (List String)
  suggestedQuestions : Option (List String)
deriving DecidableEq, Repr

/-- The fixed degraded verdict returned when the structured response cannot
be parsed. -/
def neutralVerification : VerificationResult :=
  ⟨60, true, some ["Could not fully verify command"], some []⟩

/-- `Math.max(0, q)` on a finite JS number. -/
def jsMax0 (q : ℚ) : ℚ := if 0 ≤ q then q else 0

/-- `Math.min(100, q)` on a finite JS number. -/
def jsMin100 (q : ℚ) : ℚ := if q ≤ 100 then q else 100

/-- `Math.min(100, Math.max(0, x || 50))` on a JS number `x`: NaN and 0 are
falsy and replaced by 50 before clamping; the infinities clamp to the ends. -/
def confExpr (x : JSNum) : ℚ :=
  match x with
  | .nan => 50
  | .num q => if q = 0 then 50 else jsMin100 (jsMax0 q)
  | .inf => 100
  | .negInf => 0

/-- `Boolean(parsed.isCorrect ?? true)`. -/
def isCorrectExpr (o : Option JValue) : Bool :=
  match o with
  | none => true
  | some .null => true
  | some v => jsTruthy v

/-- `Array.isArray(x) ? x.map(String) : []`. -/
def strArrayExpr (o : Option JValue) : List String :=
  match o with
  | some (.arr l) => l.map jsToString
  | _ => []

/-- `verifyCommand` of the provider base class, as a function of the raw chat
response: parse the structured verdict, clamping and defaulting each field;
degrade to the fixed neutral verdict when parsing fails. -/
def verifyCommandProvider (response : String) : VerificationResult :=
  match parseJSON response with
  | some parsed =>
    ⟨confExpr (jsNumber (objGet parsed "confidence")),
     isCorrectExpr (objGet parsed "isCorrect"),
     some (strArrayExpr (objGet parsed "issues")),
     some (strArrayExpr (objGet parsed "suggestedQuestions"))⟩
  | none => neutralVerification

structure InfoCheck where
  isInformational : Bool
  message : Option String
deriving DecidableEq, Repr

structure VerificationOutcome where
  passed : Bool
  result : VerificationResult
  needsClarification : Bool
  isInformationalResponse : Bool
  extractedMessage : Option String
deriving DecidableEq, Repr

/-- `verifyCommand` of the verifier service (the variant carrying the
informational check): combines the provider verdict with the configured
threshold and the informational detector's result. -/
def verifyCommandService (threshold : ℚ) (result : VerificationResult)
    (infoCheck : InfoCheck) : VerificationOutcome :=
  ⟨decide (threshold ≤ result.confidence) && result.isCorrect,
   result,
   !(decide (threshold ≤ result.confidence) && result.isCorrect) &&
     decide (0 < (result.suggestedQuestions.elim 0 List.length)),
   infoCheck.isInformational,
   infoCheck.message⟩

/-! ## Informational-response detector -/

/-- The match and capture of `/^echo\s+["'](.+)["']\s*$/` against an input.
The pattern is deterministic: after `echo` and a nonempty whitespace run, the
next character must be a quote; the closing quote must be the character just
before the maximal all-whitespace suffix (whitespace is never a quote, so no
earlier closing position can satisfy the trailing `\s*$`); the capture is
what lies between, nonempty and free of line terminators (`.`). -/
def echoQuotedCapture (l : List Char) : Option (List Char) :=
  if "echo".data.isPrefixOf l then
    let rest := l.drop 4
    if rest.takeWhile isJsWs = [] then none
    else
      match rest.dropWhile isJsWs with
      | c :: r2 =>
        if c = dq ∨ c = sq then
          let r2t := (r2.reverse.dropWhile isJsWs).reverse
          match r2t.getLast? with
          | some q =>
            if q = dq ∨ q = sq then
              let cap := r2t.dropLast
              if cap ≠ [] ∧ cap.all (fun ch => ¬ isLineTerm ch) then some cap
              else none
            else none
          | none => none
        else none
      | [] => none
  else none

/-- `/^(who|what|how|why|hello|hi|hey|help|thank|can you|tell me about)/i`
tested against the (already trimmed) query: a case-insensitive anchored
prefix match of one of the fixed lead-ins. -/
def conversationalTest (query : String) : Bool :=
  let t := (jsTrim query).data.map Char.toLower
  ["who", "what", "how", "why", "hello", "hi", "hey", "help", "thank",
   "can you", "tell me about"].any (fun pat => pat.data.isPrefixOf t)

/-- `/^(echo|printf)\s+/` tested against the trimmed command: an anchored
literal alternation followed by at least one whitespace character. -/
def looksLikeEcho (s : String) : Bool :=
  ("echo".data.isPrefixOf s.data &&
    (match s.data.drop 4 with | c :: _ => isJsWs c | [] => false)) ||
  ("printf".data.isPrefixOf s.data &&
    (match s.data.drop 6 with | c :: _ => isJsWs c | [] => false))

/-- The catch-branch of the provider's `checkInformationalResponse`: the echo
extraction plus the conversational-query gate. -/
def infoFallback (command query : String) : InfoCheck :=
  match echoQuotedCapture (jsTrim command).data with
  | some cap =>
    if conversationalTest query then ⟨true, some ⟨cap⟩⟩ else ⟨false, none⟩
  | none => ⟨false, none⟩

/-- `checkInformationalResponse` of the provider base class, as a function of
the semantic-judgment chat outcome: on success the parsed verdict is coerced
field-wise; on chat failure or parse failure the regex fallback runs. -/
def checkInformationalResponse (command query : String)
    (chatResult : Except Unit String) : InfoCheck :=
  match chatResult with
  | .ok resp =>
    match parseJSON resp with
    | some parsed =>
      ⟨(match objGet parsed "isInformational" with
        | some v => jsTruthy v
        | none => false),
       (match objGet parsed "message" with
        | some v => if jsTruthy v then some (jsToString v) else none
        | none => none)⟩
    | none => infoFallback command query
  | .error _ => infoFallback command query

/-- `checkIfInformationalResponse` of the verifier service: the syntactic
echo/printf gate, then the semantic service call, with its own echo-only
fallback when the service call itself throws. -/
def checkIfInformationalResponse (command query : String)
    (serviceResult : Except Unit InfoCheck) : InfoCheck :=
  let trimmed := jsTrim command
  if looksLikeEcho trimmed then
    match serviceResult with
    | .ok r => r
    | .error _ =>
      match echoQuotedCapture trimmed.data with
      | some cap => ⟨true, some ⟨cap⟩⟩
      | none => ⟨false, none⟩
  else ⟨false, none⟩

/-! ## Response extraction and sanitization (`base.ts`) -/

structure GeneratedCommand where
  command : String
  explanation : String
deriving DecidableEq, Repr

/-- One sequential `.replace(/\\x/g, 'y')` pass: every backslash-`a` pair
becomes `b`, scanning left to right without overlap. -/
def replaceEscPair (a b : Char) : List Char → List Char
  | [] => []
  | [c] => [c]
  | c :: d :: rest =>
    if c = bsl ∧ d = a then b :: replaceEscPair a b rest
    else c :: replaceEscPair a b (d :: rest)

/-- The four-step unescape applied to a regex-extracted command value
(`\n`, `\t`, `\"`, `\\`, in source order). -/
def unescapeCmd (l : List Char) : List Char :=
  replaceEscPair bsl bsl (replaceEscPair dq dq
    (replaceEscPair 't' '\t' (replaceEscPair 'n' '\n' l)))

/-- The three-step unescape applied to a regex-extracted explanation value
(`\n`, `\"`, `\\`; no `\t` in the source). -/
def unescapeExpl (l : List Char) : List Char :=
  replaceEscPair bsl bsl (replaceEscPair dq dq (replaceEscPair 'n' '\n' l))

/-- The capture of `((?:[^"\\]|\\.)*)"`: everything up to the first unescaped
quote, where a backslash always escapes the next (non-line-terminator)
character; fails without a closing quote. -/
def captureEsc : List Char → Option (List Char)
  | [] => none
  | c :: rest =>
    if c = dq then some []
    else if c = bsl then
      match rest with
      | d :: rest2 =>
        if ¬ isLineTerm d then
          match captureEsc rest2 with
          | some cs => some (c :: d :: cs)
          | none => none
        else none
      | [] => none
    else
      match captureEsc rest with
      | some cs => some (c :: cs)
      | none => none

/-- `String.prototype.includes`: substring search. -/
def containsSub (pat : List Char) : List Char → Bool
  | [] => pat.isPrefixOf []
  | c :: rest => pat.isPrefixOf (c :: rest) || containsSub pat rest

/-- The quoted JSON key `"command"` as raw characters. -/
def keyCommand : List Char := dq :: ("command".data ++ [dq])

/-- The quoted JSON key `"explanation"` as raw characters. -/
def keyExplanation : List Char := dq :: ("explanation".data ++ [dq])

/-- Attempt `/"key"\s*:\s*"((?:[^"\\]|\\.)*)"/` at this exact position. -/
def keyValueAt (key : List Char) (l : List Char) : Option (List Char) :=
  if key.isPrefixOf l then
    match (l.drop key.length).dropWhile isJsWs with
    | ':' :: r2 =>
      match r2.dropWhile isJsWs with
      | c :: r4 => if c = dq then captureEsc r4 else none
      | [] => none
    | _ => none
  else none

/-- Regex search: the first position where the key/value pattern matches. -/
def findKeyValue (key : List Char) : List Char → Option (List Char)
  | [] => none
  | c :: rest =>
    match keyValueAt key (c :: rest) with
    | some cap => some cap
    | none => findKeyValue key rest

/-- One iteration of the `extractNestedCommand` loop: `some` is a successful
unwrap (`continue`), `none` is `break`. The JSON path requires a truthy
string `command` field; the regex path runs only when `JSON.parse` throws. -/
def extractNestedStep (result : String) : Option String :=
  if (match result.data with | '{' :: _ => true | _ => false)
      && containsSub keyCommand result.data then
    match jsonParse result with
    | some parsed =>
      match objGet parsed "command" with
      | some (.str s) => if s ≠ "" then some s else none
      | _ => none
    | none =>
      match findKeyValue keyCommand result.data with
      | some cap => some ⟨unescapeCmd cap⟩
      | none => none
  else none

def extractNestedLoop (fuel : Nat) (result : String) : String :=
  match fuel with
  | 0 => result
  | f + 1 =>
    match extractNestedStep result with
    | some r => extractNestedLoop f r
    | none => result

/-- `extractNestedCommand` from `base.ts`: at most three unwrap iterations on
the trimmed input. -/
def extractNestedCommand (input : String) : String :=
  extractNestedLoop 3 (jsTrim input)

/-- `/```[\w]*\s*/g` applied as a single left-to-right scan. Fuel is any
bound above the input length. -/
def stripFences1 (fuel : Nat) (l : List Char) : List Char :=
  match fuel, l with
  | 0, l => l
  | _, [] => []
  | f + 1, c :: rest =>
    if fence3 (c :: rest) then
      stripFences1 f (((rest.drop 2).dropWhile isWordChar).dropWhile isJsWs)
    else c :: stripFences1 f rest

/-- `/```/g` applied as a single left-to-right scan. -/
def stripFences2 (fuel : Nat) (l : List Char) : List Char :=
  match fuel, l with
  | 0, l => l
  | _, [] => []
  | f + 1, c :: rest =>
    if fence3 (c :: rest) then stripFences2 f (rest.drop 2)
    else c :: stripFences2 f rest

/-- `/^[$#>]\s*/gm`: drop a prompt marker and its trailing whitespace at
every line start; the next scan position is a line start exactly when the
last consumed input character was a line terminator. -/
def stripPrompts (fuel : Nat) (lineStart : Bool) (l : List Char) : List Char :=
  match fuel, l with
  | 0, l => l
  | _, [] => []
  | f + 1, c :: rest =>
    if lineStart ∧ (c = '$' ∨ c = '#' ∨ c = '>') then
      stripPrompts f
        (match (rest.takeWhile isJsWs).getLast? with
         | some w => isLineTerm w
         | none => false)
        (rest.dropWhile isJsWs)
    else c :: stripPrompts f (isLineTerm c) rest

/-- `/\s+/g → ' '`: collapse every maximal whitespace run to one space. -/
def collapseWs (fuel : Nat) (l : List Char) : List Char :=
  match fuel, l with
  | 0, l => l
  | _, [] => []
  | f + 1, c :: rest =>
    if isJsWs c then ' ' :: collapseWs f (rest.dropWhile isJsWs)
    else c :: collapseWs f rest

/-- `sanitizeCommand` from `base.ts`: trim, unwrap nested JSON, strip fences,
prompt markers and backticks, collapse whitespace, trim. -/
def sanitizeCommand (command : String) : String :=
  if command = "" then ""
  else
    let s2 := (extractNestedCommand (jsTrim command)).data
    let s3 := stripFences1 s2.length s2
    let s4 := stripFences2 s3.length s3
    let s5 := stripPrompts s4.length true s4
    let s6 := s5.filter (fun c => ¬ (c = btick))
    let s7 := collapseWs s6.length s6
    jsTrim ⟨s7⟩

/-- `String(parsed.explanation || '')`. -/
def explanationExpr (o : Option JValue) : String :=
  match o with
  | some v => if jsTruthy v then jsToString v else ""
  | none => ""

/-- The shared fallthrough of `extractCommand` when the JSON path does not
return: manual regex extraction, then the whole-text fallback. -/
def extractCommandFallback (trimmed : String) : GeneratedCommand :=
  match findKeyValue keyCommand trimmed.data with
  | some rawCap =>
    let rawCommand := extractNestedCommand ⟨unescapeCmd rawCap⟩
    let explanation : String := match findKeyValue keyExplanation trimmed.data with
      | some ecap => ⟨unescapeExpl ecap⟩
      | none => ""
    ⟨sanitizeCommand rawCommand, explanation⟩
  | none =>
    ⟨sanitizeCommand (extractNestedCommand trimmed), "Generated command"⟩

/-- `extractCommand` from `base.ts`: JSON path (with nested unwrap and
sanitization), then regex path, then whole-text fallback. -/
def extractCommand (response : String) : GeneratedCommand :=
  let trimmed := jsTrim response
  match parseJSON trimmed with
  | some parsed =>
    (match objGet parsed "command" with
     | some (.str s) =>
       if s ≠ "" then
         ⟨sanitizeCommand (extractNestedCommand s),
          explanationExpr (objGet parsed "explanation")⟩
       else extractCommandFallback trimmed
     | _ => extractCommandFallback trimmed)
  | none => extractCommandFallback trimmed

/-- JSON string-escape for building wrapped fixtures (quote and backslash). -/
def jsonEscape (s : String) : String :=
  ⟨s.data.foldr (fun c acc => if c = dq ∨ c = bsl then bsl :: c :: acc else c :: acc) []⟩

/-- `k`-fold JSON wrapping of a base command:
`wrapN (k+1) = {"command": "<escaped wrapN k>"}`. -/
def wrapN : Nat → String
  | 0 => "ls -la"
  | k + 1 => "\x7b\"command\": " ++ (⟨[dq]⟩ : String) ++ jsonEscape (wrapN k) ++ (⟨[dq]⟩ : String) ++ "\x7d"

/-! ## Confirmation gate / execution orchestrator (`run.ts`)

The interactive pipeline after verification, as a pure function: prompt
answers arrive through an explicit `UserInput`, command execution through an
explicit executor oracle, and the observable effects (what was displayed,
which boolean confirmation was asked and with which default, what was
executed, what was recorded to session history) are returned as data. -/

structure ExecutionResult where
  exitCode : Int
  stdout : String
  stderr : String
deriving DecidableEq, Repr

/-- The arguments of one `sessionManager.addCommand` call. -/
structure RecordedCall where
  query : String
  generated : GeneratedCommand
  verification : VerificationResult
  execution : Option ExecutionResult
deriving DecidableEq, Repr

inductive SafeAction : Type
  | run | edit | cancel
deriving DecidableEq, Repr

inductive ClarifyAction : Type
  | clarify | runAnyway | cancel
deriving DecidableEq, Repr

/-- The interactive answers one pipeline pass may consume. -/
structure UserInput where
  dangerousConfirm : Bool
  safeAction : SafeAction
  editedCommand : String
  editedConfirm : Bool
  clarifyAction : ClarifyAction
  additionalInfo : String
deriving DecidableEq, Repr

/-- The observable outcome of one pipeline pass. -/
structure PipelineResult where
  infoShown : Option String
  severityComputed : Option SeverityCheck
  confirmDefault : Option Bool
  executed : Option String
  execResult : Option ExecutionResult
  recorded : Option RecordedCall
  restartQuery : Option String
deriving DecidableEq, Repr

/-- `displayAndExecute` from `run.ts`: compute severity; dangerous levels get
a boolean confirm defaulting to `false` (decline records with no execution);
other levels get the run/edit/cancel choice, with an edited command
re-classified from scratch. -/
def displayAndExecute (query : String) (generated : GeneratedCommand)
    (verification : VerificationResult) (input : UserInput)
    (execFn : String → ExecutionResult) : PipelineResult :=
  let severity := checkSeverity generated.command
  if requiresConfirmation severity.level then
    if input.dangerousConfirm then
      let r := execFn generated.command
      ⟨none, some severity, some false, some generated.command, some r,
       some ⟨query, generated, verification, some r⟩, none⟩
    else
      ⟨none, some severity, some false, none, none,
       some ⟨query, generated, verification, none⟩, none⟩
  else
    match input.safeAction with
    | .run =>
      let r := execFn generated.command
      ⟨none, some severity, none, some generated.command, some r,
       some ⟨query, generated, verification, some r⟩, none⟩
    | .edit =>
      if jsTrim input.editedCommand ≠ "" then
        let editedSeverity := checkSeverity input.editedCommand
        if requiresConfirmation editedSeverity.level then
          if input.editedConfirm then
            let r := execFn input.editedCommand
            ⟨none, some severity, some false, some input.editedCommand, some r,
             some ⟨query, ⟨input.editedCommand, generated.explanation⟩, verification, some r⟩,
             none⟩
          else
            ⟨none, some severity, some false, none, none,
             some ⟨query, ⟨input.editedCommand, generated.explanation⟩, verification, none⟩,
             none⟩
        else
          let r := execFn input.editedCommand
          ⟨none, some severity, none, some input.editedCommand, some r,
           some ⟨query, ⟨input.editedCommand, generated.explanation⟩, verification, some r⟩,
           none⟩
      else
        -- an emptied edit falls straight through: nothing executes, nothing
        -- is recorded
        ⟨none, some severity, none, none, none, none, none⟩
    | .cancel =>
      ⟨none, some severity, none, none, none,
       some ⟨query, generated, verification, none⟩, none⟩

/-- `handleClarification` from `run.ts`: gather details and restart, force
the normal display, or cancel (which records nothing). -/
def handleClarification (originalQuery : String) (generated : GeneratedCommand)
    (verification : VerificationResult) (input : UserInput)
    (execFn : String → ExecutionResult) : PipelineResult :=
  match input.clarifyAction with
  | .clarify =>
    if jsTrim input.additionalInfo ≠ "" then
      ⟨none, none, none, none, none, none,
       some (originalQuery ++ ". Additional context: " ++ input.additionalInfo)⟩
    else ⟨none, none, none, none, none, none, none⟩
  | .runAnyway => displayAndExecute originalQuery generated verification input execFn
  | .cancel => ⟨none, none, none, none, none, none, none⟩

/-- JS truthiness of an optional string (`undefined` and `""` are falsy). -/
def optStrTruthy (o : Option String) : Bool :=
  match o with
  | some s => s ≠ ""
  | none => false

/-- The branch of `runCommand` after verification: informational display
(which requires the flag *and* a truthy extracted message), clarification,
or the display/execute flow. The informational branch records the
interaction with no execution result and never computes severity. -/
def dispatchAfterVerification (query : String) (generated : GeneratedCommand)
    (verification : VerificationOutcome) (input : UserInput)
    (execFn : String → ExecutionResult) : PipelineResult :=
  if verification.isInformationalResponse && optStrTruthy verification.extractedMessage then
    ⟨some (verification.extractedMessage.getD ""), none, none, none, none,
     some ⟨query, generated, verification.result, none⟩, none⟩
  else if verification.needsClarification then
    handleClarification query generated verification.result input execFn
  else
    displayAndExecute query generated verification.result input execFn

/-! ## Session history (`SessionManager.addCommand`) -/

structure CommandHistory where
  query : String
  command : String
  explanation : String
  confidence : ℚ
  exitCode : Option Int
  stdout : Option String
  stderr : Option String
  timestamp : Nat
  cwd : String
deriving DecidableEq, Repr

/-- The `truncate` helper of `addCommand`: absent or empty output stays
absent (JS falsiness), long output is cut at 500 characters with a marker. -/
def truncateOut (s : Option String) : Option String :=
  match s with
  | none => none
  | some str =>
    if str = "" then none
    else if 500 < str.length then some ((⟨str.data.take 500⟩ : String) ++ "...(truncated)")
    else some str

/-- The history record `addCommand` pushes. -/
def mkHistoryEntry (query : String) (generated : GeneratedCommand)
    (verification : VerificationResult) (executionResult : Option ExecutionResult)
    (timestamp : Nat) (cwd : String) : CommandHistory :=
  ⟨query, generated.command, generated.explanation, verification.confidence,
   executionResult.map (fun r => r.exitCode),
   truncateOut (executionResult.map (fun r => r.stdout)),
   truncateOut (executionResult.map (fun r => r.stderr)),
   timestamp, cwd⟩

/-- The history update of `addCommand`: push, then keep the last 20
(`history.slice(-20)`) when the bound is exceeded. -/
def addCommandHistory (history : List CommandHistory) (entry : CommandHistory) :
    List CommandHistory :=
  let h := history ++ [entry]
  if 20 < h.length then h.drop (h.length - 20) else h

/-! ## Claim C2: the dangerous-command confirmation gate -/

/-- Counterexample to C3 as stated: a verification outcome marked
informational (`isInformational: true` in the semantic verdict) but with a
`null` message reaches the severity stage and executes. The outcome is built
through the real verifier chain from a concrete semantic-judgment response. -/
theorem informational_without_message_executes :
    (verifyCommandService 70 neutralVerification
      (checkIfInformationalResponse "echo hi" "who are you"
        (.ok (checkInformationalResponse "echo hi" "who are you"
          (.ok "\x7b\"isInformational\": true, \"message\": null\x7d"))))).isInformationalResponse
      = true ∧
    (dispatchAfterVerification "who are you" ⟨"echo hi", "prints a greeting"⟩
      (verifyCommandService 70 neutralVerification
        (checkIfInformationalResponse "echo hi" "who are you"
          (.ok (checkInformationalResponse "echo hi" "who are you"
            (.ok "\x7b\"isInformational\": true, \"message\": null\x7d")))))
      ⟨false, .run, "", false, .cancel, ""⟩ (fun _ => ⟨0, "hi", ""⟩)).executed =
      some "echo hi" ∧
    (dispatchAfterVerification "who are you" ⟨"echo hi", "prints a greeting"⟩
      (verifyCommandService 70 neutralVerification
        (checkIfInformationalResponse "echo hi" "who are you"
          (.ok (checkInformationalResponse "echo hi" "who are you"
            (.ok "\x7b\"isInformational\": true, \"message\": null\x7d")))))
      ⟨false, .run, "", false, .cancel, ""⟩ (fun _ => ⟨0, "hi", ""⟩)).severityComputed ≠
      none ∧
    (dispatchAfterVerification "who are you" ⟨"echo hi", "prints a greeting"⟩
      (verifyCommandService 70 neutralVerification
        (checkIfInformationalResponse "echo hi" "who are you"
          (.ok (checkInformationalResponse "echo hi" "who are you"
            (.ok "\x7b\"isInformational\": true, \"message\": null\x7d")))))
      ⟨false, .run, "", false, .cancel, ""⟩ (fun _ => ⟨0, "hi", ""⟩)).infoShown = none := by
  decide

/-- Claim C3 (amended): whenever the verification outcome is marked
informational *and* carries a truthy extracted message, the orchestrator
shows exactly that message, never executes, never reaches the severity or
confirmation stage, and records the interaction with no execution result. -/
theorem informational_display_spec (query : String) (generated : GeneratedCommand)
    (v : VerificationOutcome) (input : UserInput) (execFn : String → ExecutionResult)
    (hinfo : v.isInformationalResponse = true)
    (hmsg : optStrTruthy v.extractedMessage = true) :
    (dispatchAfterVerification query generated v input execFn).infoShown =
      v.extractedMessage ∧
    (dispatchAfterVerification query generated v input execFn).executed = none ∧
    (dispatchAfterVerification query generated v input execFn).severityComputed = none ∧
    (dispatchAfterVerification query generated v input execFn).confirmDefault = none ∧
    (dispatchAfterVerification query generated v input execFn).recorded =
      some ⟨query, generated, v.result, none⟩ := by
  cases hm : v.extractedMessage with
  | none => rw [hm] at hmsg; simp [optStrTruthy] at hmsg
  | some s =>
    have hs : ¬ (s = "") := by
      rw [hm] at hmsg
      simpa [optStrTruthy] using hmsg
    unfold dispatchAfterVerification
    rw [hinfo, hm]
    simp [optStrTruthy, hs]

/-- The scenario-B command. -/
def scenarioBCommand : String := "echo \"I am a shell command generator\""

/-- The scenario-B verification outcome, built through the real verifier
chain with the semantic informational judgment degraded to the heuristic. -/
def scenarioBOutcome : VerificationOutcome :=
  verifyCommandService 70 ⟨85, true, some [], some []⟩
    (checkIfInformationalResponse scenarioBCommand "who are you"
      (.ok (checkInformationalResponse scenarioBCommand "who are you" (.error ()))))

/-- Witness for C3 (amended) at scenario B. -/
theorem informational_display_spec_witness :
    (dispatchAfterVerification "who are you" ⟨scenarioBCommand, ""⟩ scenarioBOutcome
      ⟨false, .run, "", false, .cancel, ""⟩ (fun _ => ⟨0, "", ""⟩)).infoShown =
      scenarioBOutcome.extractedMessage ∧
    (dispatchAfterVerification "who are you" ⟨scenarioBCommand, ""⟩ scenarioBOutcome
      ⟨false, .run, "", false, .cancel, ""⟩ (fun _ => ⟨0, "", ""⟩)).executed = none ∧
    (dispatchAfterVerification "who are you" ⟨scenarioBCommand, ""⟩ scenarioBOutcome
      ⟨false, .run, "", false, .cancel, ""⟩ (fun _ => ⟨0, "", ""⟩)).severityComputed = none ∧
    (dispatchAfterVerification "who are you" ⟨scenarioBCommand, ""⟩ scenarioBOutcome
      ⟨false, .run, "", false, .cancel, ""⟩ (fun _ => ⟨0, "", ""⟩)).confirmDefault = none ∧
    (dispatchAfterVerification "who are you" ⟨scenarioBCommand, ""⟩ scenarioBOutcome
      ⟨false, .run, "", false, .cancel, ""⟩ (fun _ => ⟨0, "", ""⟩)).recorded =
      some ⟨"who are you", ⟨scenarioBCommand, ""⟩, scenarioBOutcome.result, none⟩ :=
  informational_display_spec "who are you" ⟨scenarioBCommand, ""⟩ scenarioBOutcome
    ⟨false, .run, "", false, .cancel, ""⟩ (fun _ => ⟨0, "", ""⟩) (by decide) (by decide)

/-! ## Claim C4: the verification outcome combinator -/

/-- Claim C4: `passed` is exactly confidence-at-least-threshold and
correctness; `needsClarification` is exactly non-passing with a nonempty
suggested-question list; in particular a failing verification with no
questions yields no clarification. -/
theorem verification_outcome_spec (threshold : ℚ) (result : VerificationResult)
    (info : InfoCheck) :
    (verifyCommandService threshold result info).passed =
      (decide (result.confidence ≥ threshold) && result.isCorrect) ∧
    (verifyCommandService threshold result info).needsClarification =
      (!(verifyCommandService threshold result info).passed &&
        decide (0 < (result.suggestedQuestions.elim 0 List.length))) ∧
    ((result.suggestedQuestions = none ∨ result.suggestedQuestions = some []) →
      (verifyCommandService threshold result info).needsClarification = false) := by
  refine ⟨rfl, rfl, ?_⟩
  intro h
  rcases h with h | h <;> simp [verifyCommandService, h]

/-- Witness for C4: confidence 55 against threshold 70 with no suggested
questions fails without requesting clarification. -/
theorem verification_outcome_spec_witness :
    (verifyCommandService 70 ⟨55, true, some [], some []⟩ ⟨false, none⟩).passed =
      (decide ((55 : ℚ) ≥ 70) && true) ∧
    (verifyCommandService 70 ⟨55, true, some [], some []⟩ ⟨false, none⟩).needsClarification =
      (!(verifyCommandService 70 ⟨55, true, some [], some []⟩ ⟨false, none⟩).passed &&
        decide (0 < ((some [] : Option (List String)).elim 0 List.length))) ∧
    (verifyCommandService 70 ⟨55, true, some [], some []⟩ ⟨false, none⟩).needsClarification =
      false :=
  ⟨(verification_outcome_spec 70 ⟨55, true, some [], some []⟩ ⟨false, none⟩).1,
   (verification_outcome_spec 70 ⟨55, true, some [], some []⟩ ⟨false, none⟩).2.1,
   (verification_outcome_spec 70 ⟨55, true, some [], some []⟩ ⟨false, none⟩).2.2
     (Or.inr rfl)⟩

/-! ## Claim C5: degraded verification verdict -/

/-- Claim C5: when the structured verdict cannot be parsed, the provider's
`verifyCommand` returns exactly the fixed neutral result (confidence 60,
correct, one incomplete-verification issue, no questions) instead of an
error. -/
theorem verify_parse_failure_neutral (response : String)
    (h : parseJSON response = none) :
    verifyCommandProvider response =
      ⟨60, true, some ["Could not fully verify command"], some []⟩ := by
  unfold verifyCommandProvider
  rw [h]
  rfl

/-- Witness for C5: a plain-prose response has no parsable verdict and
degrades to the neutral result. -/
theorem verify_parse_failure_neutral_witness :
    verifyCommandProvider "The command looks fine to me." =
      ⟨60, true, some ["Could not fully verify command"], some []⟩ :=
  verify_parse_failure_neutral "The command looks fine to me." rfl

/-! ## Claim C6: confidence clamping -/

lemma confExpr_bounds (x : JSNum) : 0 ≤ confExpr x ∧ confExpr x ≤ 100 := by
  cases x with
  | nan => norm_num [confExpr]
  | inf => norm_num [confExpr]
  | negInf => norm_num [confExpr]
  | num q =>
    simp only [confExpr, jsMin100, jsMax0]
    split_ifs <;> constructor <;> first | assumption | norm_num

/-- Counterexample to C6 as stated: a raw verdict with confidence `55.5`
produces the non-integer confidence `111/2` (denominator 2), so the result
is not always integer-valued. -/
theorem confidence_fractional :
    (verifyCommandProvider
      "\x7b\"confidence\": 55.5, \"isCorrect\": true\x7d").confidence.num = 111 ∧
    (verifyCommandProvider
      "\x7b\"confidence\": 55.5, \"isCorrect\": true\x7d").confidence.den = 2 := by
  decide

/-- Claim C6 (amended): the confidence is always a number in [0, 100] (never
NaN, which the result type cannot represent): a parse failure yields 60; a
parsed verdict yields the clamp expression, which maps an unusable (missing,
non-numeric) or zero confidence to 50 and clamps a truthy finite confidence
into [0, 100] without rounding it to an integer. -/
theorem confidence_valid (response : String) :
    (0 ≤ (verifyCommandProvider response).confidence ∧
      (verifyCommandProvider response).confidence ≤ 100) ∧
    (parseJSON response = none → (verifyCommandProvider response).confidence = 60) ∧
    (∀ parsed, parseJSON response = some parsed →
      (verifyCommandProvider response).confidence =
        confExpr (jsNumber (objGet parsed "confidence"))) ∧
    confExpr .nan = 50 ∧ confExpr (.num 0) = 50 ∧
    (∀ q : ℚ, q ≠ 0 → confExpr (.num q) = jsMin100 (jsMax0 q)) := by
  refine ⟨?_, ?_, ?_, rfl, rfl, ?_⟩
  · unfold verifyCommandProvider
    cases h : parseJSON response with
    | none => norm_num [neutralVerification]
    | some parsed => exact confExpr_bounds _
  · intro h
    unfold verifyCommandProvider
    rw [h]
    rfl
  · intro parsed h
    unfold verifyCommandProvider
    rw [h]
  · intro q hq
    simp [confExpr, hq]

/-- Witness for C6 (amended): an unparsable response gives confidence 60,
inside the bounds. -/
theorem confidence_valid_witness :
    (0 ≤ (verifyCommandProvider "###").confidence ∧
      (verifyCommandProvider "###").confidence ≤ 100) ∧
    (verifyCommandProvider "###").confidence = 60 :=
  ⟨(confidence_valid "###").1, (confidence_valid "###").2.1 rfl⟩

/-! ## Claim C7: nested JSON unwinding -/

/-- The scenario-D raw model text:
`{"command": "{\"command\": \"ls -la\"}", "explanation": "list files"}`. -/
def scenarioDText : String :=
  "\x7b\"command\": \"\x7b\\\"command\\\": \\\"ls -la\\\"\x7d\", \"explanation\": \"list files\"\x7d"

set_option maxRecDepth 100000 in
/-- Counterexample to C7 as stated: an 8-fold JSON-wrapped command exhausts
the bounded unwrap iterations (one in `parseJSON`, three in
`extractNestedCommand`, three more inside `sanitizeCommand`) and the
extracted command is still a JSON text whose `command` field is present. -/
theorem nested_json_beyond_bound :
    (extractCommand (wrapN 8)).command = wrapN 1 ∧
    (match jsonParse (wrapN 1) with
     | some v => (objGet v "command").isSome
     | none => false) = true := by
  decide

set_option maxRecDepth 100000 in
/-- Claim C7 (amended): JSON-string wrapping is unwound by bounded iteration
— up to seven levels along the JSON path — so scenario D unwraps twice to
`ls -la` with explanation `list files`, and even a 7-fold wrapped command
fully unwinds; only nesting beyond the iteration budget (or wrapping whose
`command` value is not a string) can survive. -/
theorem extract_unwraps_bounded :
    extractCommand scenarioDText = ⟨"ls -la", "list files"⟩ ∧
    (extractCommand (wrapN 7)).command = "ls -la" := by
  decide

/-! ## Claim C8: the informational fallback heuristic -/

lemma looksLikeEcho_of_echoQuoted {s : String} {cap : List Char}
    (h : echoQuotedCapture s.data = some cap) : looksLikeEcho s = true := by
  unfold echoQuotedCapture at h
  by_cases hp : "echo".data.isPrefixOf s.data
  · rw [if_pos hp] at h
    by_cases hw : (s.data.drop 4).takeWhile isJsWs = []
    · rw [if_pos hw] at h
      exact absurd h (by simp)
    · have hhead : ∃ ch t, s.data.drop 4 = ch :: t ∧ isJsWs ch = true := by
        cases hd : s.data.drop 4 with
        | nil => rw [hd] at hw; simp [List.takeWhile] at hw
        | cons ch t =>
          rw [hd] at hw
          by_cases hch : isJsWs ch
          · exact ⟨ch, t, rfl, hch⟩
          · rw [List.takeWhile_cons_of_neg (by simpa using hch)] at hw
            exact absurd rfl hw
      obtain ⟨ch, t, hd, hch⟩ := hhead
      unfold looksLikeEcho
      rw [hd]
      simp [hp, hch]
  · rw [if_neg hp] at h
    exact absurd h (by simp)

/-- Claim C8: when the semantic informational judgment fails (the chat call
errors), the detector reports informational exactly when the command matches
the quoted-echo literal *and* the query matches a conversational lead-in,
and the message is then the quoted echo argument. -/
theorem informational_fallback_spec (command query : String) :
    ((checkIfInformationalResponse command query
      (.ok (checkInformationalResponse command query (.error ())))).isInformational =
      ((echoQuotedCapture (jsTrim command).data).isSome && conversationalTest query)) ∧
    ((checkIfInformationalResponse command query
      (.ok (checkInformationalResponse command query (.error ())))).message =
      (if (echoQuotedCapture (jsTrim command).data).isSome && conversationalTest query then
        (echoQuotedCapture (jsTrim command).data).map (fun cap => (⟨cap⟩ : String))
      else none)) := by
  unfold checkIfInformationalResponse checkInformationalResponse
  by_cases hg : looksLikeEcho (jsTrim command)
  · simp only [hg, if_true]
    unfold infoFallback
    cases hcap : echoQuotedCapture (jsTrim command).data with
    | none => simp [hcap]
    | some cap => by_cases hco : conversationalTest query <;> simp [hcap, hco]
  · cases hcap : echoQuotedCapture (jsTrim command).data with
    | none => simp [hg, hcap]
    | some cap => exact absurd (looksLikeEcho_of_echoQuoted hcap) hg

/-! ## Claim C9: sanitization as identity on clean commands -/

/-- No two adjacent whitespace characters. -/
def noAdjWs : List Char → Bool
  | a :: b :: rest => (¬ (isJsWs a ∧ isJsWs b)) && noAdjWs (b :: rest)
  | _ => true

/-- The amended cleanliness condition: no backticks (hence no fences), every
whitespace character is a plain isolated space (hence no newlines or tabs),
no leading or trailing whitespace, no prompt marker at the start, and the
command is not a JSON-wrapped command (does not both start with an opening
brace and contain the quoted key `"command"`). -/
def sanitizeClean (c : String) : Bool :=
  c.data.all (fun ch => !(ch = btick)) &&
  c.data.all (fun ch => !(isJsWs ch) || (ch = ' ')) &&
  noAdjWs c.data &&
  (match c.data with
   | [] => true
   | ch :: _ => !(isJsWs ch) && !(ch = '$') && !(ch = '#') && !(ch = '>')) &&
  (match c.data.getLast? with
   | some ch => !(isJsWs ch)
   | none => true) &&
  !((match c.data with | '{' :: _ => true | _ => false) && containsSub keyCommand c.data)

/-- Counterexample to C9 as stated: `ls  -la` (two inner spaces) has no
fences, no prompt markers at line starts, no backticks and no newlines, yet
sanitization collapses the double space and is not the identity. -/
theorem sanitize_collapses_spaces :
    ("ls  -la".data.all (fun ch => !(ch = btick))) = true ∧
    ("ls  -la".data.all (fun ch => !(isLineTerm ch))) = true ∧
    (match "ls  -la".data with
     | ch :: _ => !(ch = '$') && !(ch = '#') && !(ch = '>')
     | [] => true) = true ∧
    sanitizeCommand "ls  -la" = "ls -la" ∧
    ("ls  -la" : String) ≠ "ls -la" := by
  decide

lemma dropWhile_eq_self_of_head {p : Char → Bool} {l : List Char}
    (h : ∀ ch, l.head? = some ch → p ch = false) : l.dropWhile p = l := by
  cases l with
  | nil => rfl
  | cons c t => rw [List.dropWhile_cons, h c rfl]; simp

lemma jsTrimList_eq_self {l : List Char}
    (hh : ∀ ch, l.head? = some ch → isJsWs ch = false)
    (hl : ∀ ch, l.getLast? = some ch → isJsWs ch = false) :
    jsTrimList l = l := by
  unfold jsTrimList
  rw [dropWhile_eq_self_of_head hh]
  rw [dropWhile_eq_self_of_head (by
    intro ch hch
    exact hl ch (by rwa [List.head?_reverse] at hch))]
  exact List.reverse_reverse l

lemma fence3_false_of_head {c : Char} {rest : List Char} (h : ¬ (c = btick)) :
    fence3 (c :: rest) = false := by
  cases rest with
  | nil => rfl
  | cons d r2 =>
    cases r2 with
    | nil => rfl
    | cons e r3 => simp [fence3, h]

lemma stripFences1_id : ∀ (fuel : Nat) (l : List Char),
    (∀ ch ∈ l, ¬ (ch = btick)) → stripFences1 fuel l = l := by
  intro fuel
  induction fuel with
  | zero => intro l _; cases l <;> rfl
  | succ f ih =>
    intro l h
    cases l with
    | nil => rfl
    | cons c rest =>
      rw [stripFences1, fence3_false_of_head (h c (List.mem_cons_self c rest)),
        if_neg (by simp)]
      rw [ih rest (fun ch hch => h ch (List.mem_cons_of_mem c hch))]

lemma stripFences2_id : ∀ (fuel : Nat) (l : List Char),
    (∀ ch ∈ l, ¬ (ch = btick)) → stripFences2 fuel l = l := by
  intro fuel
  induction fuel with
  | zero => intro l _; cases l <;> rfl
  | succ f ih =>
    intro l h
    cases l with
    | nil => rfl
    | cons c rest =>
      rw [stripFences2, fence3_false_of_head (h c (List.mem_cons_self c rest)),
        if_neg (by simp)]
      rw [ih rest (fun ch hch => h ch (List.mem_cons_of_mem c hch))]

lemma isJsWs_of_isLineTerm {ch : Char} (h : isLineTerm ch = true) : isJsWs ch = true := by
  simp only [isLineTerm, decide_eq_true_eq] at h
  rcases h with rfl | rfl | rfl | rfl <;> decide

lemma stripPrompts_id_false : ∀ (fuel : Nat) (l : List Char),
    (∀ ch ∈ l, isLineTerm ch = false) → stripPrompts fuel false l = l := by
  intro fuel
  induction fuel with
  | zero => intro l _; cases l <;> rfl
  | succ f ih =>
    intro l h
    cases l with
    | nil => rfl
    | cons c rest =>
      rw [stripPrompts, if_neg (by simp)]
      rw [h c (List.mem_cons_self c rest)]
      rw [ih rest (fun ch hch => h ch (List.mem_cons_of_mem c hch))]

lemma stripPrompts_id : ∀ (fuel : Nat) (l : List Char),
    (∀ ch ∈ l, isLineTerm ch = false) →
    (∀ ch, l.head? = some ch → ¬ (ch = '$' ∨ ch = '#' ∨ ch = '>')) →
    stripPrompts fuel true l = l := by
  intro fuel
  cases fuel with
  | zero => intro l _ _; cases l <;> rfl
  | succ f =>
    intro l hterm hhead
    cases l with
    | nil => rfl
    | cons c rest =>
      rw [stripPrompts, if_neg (fun hcond => hhead c rfl hcond.2)]
      rw [hterm c (List.mem_cons_self c rest)]
      rw [stripPrompts_id_false f rest
        (fun ch hch => hterm ch (List.mem_cons_of_mem c hch))]

lemma noAdjWs_tail {a : Char} {t : List Char} (h : noAdjWs (a :: t) = true) :
    noAdjWs t = true := by
  cases t with
  | nil => rfl
  | cons b r =>
    rw [noAdjWs, Bool.and_eq_true] at h
    exact h.2

lemma collapseWs_id : ∀ (fuel : Nat) (l : List Char),
    (∀ ch ∈ l, isJsWs ch = true → ch = ' ') → noAdjWs l = true →
    collapseWs fuel l = l := by
  intro fuel
  induction fuel with
  | zero => intro l _ _; cases l <;> rfl
  | succ f ih =>
    intro l hws hadj
    cases l with
    | nil => rfl
    | cons c rest =>
      by_cases hc : isJsWs c
      · have hcsp : c = ' ' := hws c (List.mem_cons_self c rest) hc
        have hdrop : rest.dropWhile isJsWs = rest := by
          cases rest with
          | nil => rfl
          | cons d r2 =>
            have hpair : isJsWs c = false ∨ isJsWs d = false := by
              rw [noAdjWs, Bool.and_eq_true] at hadj
              simpa using hadj.1
            have hd : isJsWs d = false := by
              rcases hpair with hp | hp
              · exact absurd hc (by simp [hp])
              · exact hp
            rw [List.dropWhile_cons, hd]
            simp
        rw [collapseWs, if_pos (by simpa using hc), hdrop,
          ih rest (fun ch hch hwch => hws ch (List.mem_cons_of_mem c hch) hwch)
            (noAdjWs_tail hadj), hcsp]
      · rw [collapseWs, if_neg (by simpa using hc),
          ih rest (fun ch hch hwch => hws ch (List.mem_cons_of_mem c hch) hwch)
            (noAdjWs_tail hadj)]

/-- Claim C9 (amended): sanitization is the identity on commands that are
clean in the strengthened sense of `sanitizeClean` (the stated conditions
plus: whitespace is only single, isolated, non-leading and non-trailing
plain spaces, and the command is not a JSON-wrapped command). -/
theorem sanitize_identity (c : String) (h : sanitizeClean c = true) :
    sanitizeCommand c = c := by
  unfold sanitizeClean at h
  simp only [Bool.and_eq_true, List.all_eq_true] at h
  obtain ⟨⟨⟨⟨⟨hbt, hsp⟩, hadj⟩, hhead⟩, hlast⟩, hjson⟩ := h
  have hws_space : ∀ ch ∈ c.data, isJsWs ch = true → ch = ' ' := by
    intro ch hch hwch
    have := hsp ch hch
    rcases Bool.or_eq_true _ _ |>.mp this with hb | hb
    · rw [hwch] at hb; simp at hb
    · simpa using hb
  have hbt' : ∀ ch ∈ c.data, ¬ (ch = btick) := by
    intro ch hch
    simpa using hbt ch hch
  have hterm : ∀ ch ∈ c.data, isLineTerm ch = false := by
    intro ch hch
    by_contra hco
    have hwch : isJsWs ch = true := isJsWs_of_isLineTerm (by simpa using hco)
    have : ch = ' ' := hws_space ch hch hwch
    rw [this] at hco
    simp [isLineTerm] at hco
  have hheadws : ∀ ch, c.data.head? = some ch → isJsWs ch = false := by
    intro ch hch
    cases hd : c.data with
    | nil => rw [hd] at hch; simp at hch
    | cons a t =>
      rw [hd] at hch
      simp only [List.head?_cons, Option.some.injEq] at hch
      subst hch
      rw [hd] at hhead
      simp only [Bool.and_eq_true] at hhead
      simpa using hhead.1.1.1
  have hheadmark : ∀ ch, c.data.head? = some ch → ¬ (ch = '$' ∨ ch = '#' ∨ ch = '>') := by
    intro ch hch
    cases hd : c.data with
    | nil => rw [hd] at hch; simp at hch
    | cons a t =>
      rw [hd] at hch
      simp only [List.head?_cons, Option.some.injEq] at hch
      subst hch
      rw [hd] at hhead
      simp only [Bool.and_eq_true] at hhead
      rintro (rfl | rfl | rfl)
      · exact absurd hhead.1.1.2 (by simp)
      · exact absurd hhead.1.2 (by simp)
      · exact absurd hhead.2 (by simp)
  have hlastws : ∀ ch, c.data.getLast? = some ch → isJsWs ch = false := by
    intro ch hch
    rw [hch] at hlast
    simpa using hlast
  have htrim : jsTrim c = c := by
    unfold jsTrim
    rw [jsTrimList_eq_self hheadws hlastws]
  have hjson' : ((match c.data with | '{' :: _ => true | _ => false) &&
      containsSub keyCommand c.data) = false := by
    revert hjson
    cases ((match c.data with | '{' :: _ => true | _ => false) &&
      containsSub keyCommand c.data) <;> simp
  have hstep : extractNestedStep c = none := by
    unfold extractNestedStep
    rw [if_neg (by simp [hjson'])]
  have hnested : extractNestedCommand c = c := by
    unfold extractNestedCommand extractNestedLoop
    rw [htrim, hstep]
  by_cases hc : c = ""
  · rw [hc]; rfl
  · unfold sanitizeCommand
    rw [if_neg hc]
    simp only [htrim, hnested]
    rw [stripFences1_id _ _ hbt', stripFences2_id _ _ hbt',
      stripPrompts_id _ _ hterm hheadmark,
      List.filter_eq_self.mpr (by intro a ha; simpa using hbt' a ha),
      collapseWs_id _ _ hws_space hadj]
    exact htrim

/-- Witness for C9 (amended): a clean command is untouched. -/
theorem sanitize_identity_witness :
    sanitizeClean "git status" = true ∧ sanitizeCommand "git status" = "git status" :=
  ⟨by decide, sanitize_identity "git status" (by decide)⟩

/-! ## Claim C10: the session-history bound -/

lemma addCommandHistory_eq_drop (init : List CommandHistory) (e : CommandHistory) :
    addCommandHistory init e = (init ++ [e]).drop ((init.length + 1) - 20) := by
  unfold addCommandHistory
  by_cases h20 : 20 < (init ++ [e]).length
  · rw [if_pos h20]
    congr 1
    simp [List.length_append]
  · rw [if_neg h20]
    have hz : init.length + 1 - 20 = 0 := by
      simp only [List.length_append, List.length_cons, List.length_nil] at h20
      omega
    rw [hz, List.drop_zero]

lemma addCommandHistory_len (init : List CommandHistory) (e : CommandHistory)
    (h : init.length ≤ 20) : (addCommandHistory init e).length ≤ 20 := by
  rw [addCommandHistory_eq_drop, List.length_drop]
  simp only [List.length_append, List.length_cons, List.length_nil]
  omega

lemma foldl_addCommand (entries : List CommandHistory) :
    ∀ init : List CommandHistory, init.length ≤ 20 →
      entries.foldl addCommandHistory init =
        (init ++ entries).drop ((init.length + entries.length) - 20) := by
  induction entries with
  | nil =>
    intro init h
    simp [Nat.sub_eq_zero_of_le h]
  | cons e tl ih =>
    intro init h
    rw [List.foldl_cons, ih _ (addCommandHistory_len init e h),
      addCommandHistory_eq_drop init e]
    rw [List.length_drop]
    rw [← List.drop_append_of_le_length (by
      simp only [List.length_append, List.length_cons, List.length_nil]
      omega)]
    rw [List.drop_drop]
    rw [List.append_assoc, List.singleton_append]
    congr 1
    simp only [List.length_append, List.length_cons, List.length_nil]
    omega

/-- Claim C10: starting from an empty session, any sequence of more than 20
appends leaves exactly the 20 most recently appended records, in append
order. -/
theorem history_bound_spec (entries : List CommandHistory)
    (h : 20 < entries.length) :
    (entries.foldl addCommandHistory []).length = 20 ∧
    entries.foldl addCommandHistory [] = entries.drop (entries.length - 20) := by
  have hf := foldl_addCommand entries [] (by simp)
  simp only [List.nil_append, List.length_nil, Nat.zero_add] at hf
  refine ⟨?_, hf⟩
  rw [hf, List.length_drop]
  omega

/-- Twenty-one distinct history records. -/
def witnessEntries : List CommandHistory :=
  (List.range 21).map (fun i => ⟨"q", "c", "e", 90, none, none, none, i, "/"⟩)

/-- Witness for C10 at a concrete run of 21 appends. -/
theorem history_bound_spec_witness :
    (witnessEntries.foldl addCommandHistory []).length = 20 ∧
    witnessEntries.foldl addCommandHistory [] =
      witnessEntries.drop (witnessEntries.length - 20) :=
  history_bound_spec witnessEntries (by decide)

end Llmd
